import Mathlib

/-!
Verification of the metadata & lyrics extraction engine of `og-audio-dl`
(`src/worker.js`) against its natural-language specification.

The JavaScript source is shallowly embedded: strings are `String` / `List Char`,
machine time stamps are `Nat`, the in-memory `Map`s are association lists, and
the two network calls (`fetch`) and `JSON.parse` are oracle parameters.
-/

set_option maxHeartbeats 1000000

/-! ### Character helpers -/

/-- The character `{` (written via its code point to keep string literals plain). -/
def lbraceChar : Char := Char.ofNat 123

/-- The character `}`. -/
def rbraceChar : Char := Char.ofNat 125

/-- The character `'` (single quote). -/
def squoteChar : Char := Char.ofNat 39

/-- JavaScript whitespace, as recognised by `String.prototype.trim` and `\s`
(ASCII whitespace plus NBSP, BOM and the line/paragraph separators). -/
def jsWhitespace (c : Char) : Bool :=
  c = ' ' || c = '\t' || c = '\n' || c = '\r' || c = Char.ofNat 11 || c = Char.ofNat 12 ||
  c = Char.ofNat 160 || c = Char.ofNat 65279 || c = Char.ofNat 8232 || c = Char.ofNat 8233

/-- `text.trim()` on a character list: drop JS whitespace from both ends. -/
def jsTrimL (l : List Char) : List Char :=
  (l.dropWhile jsWhitespace).rdropWhile jsWhitespace

/-! ### `sanitiseFilename` (worker.js lines 244-246)

`str.replace(/[\/\\:*?"<>|]/g, '_').replace(/^[.\s]+/, '').replace(/[.\s]+$/, '')` -/

/-- The nine characters of the character class `[\/\\:*?"<>|]`. -/
def badFileChar (c : Char) : Bool :=
  c = '/' || c = '\\' || c = ':' || c = '*' || c = '?' || c = '"' ||
  c = '<' || c = '>' || c = '|'

/-- The character class `[.\s]` used by the two trim regexes. -/
def dotOrSpace (c : Char) : Bool :=
  c = '.' || jsWhitespace c

/-- Core of `sanitiseFilename` on a character list: the global replace maps each
bad character to `_`; `replace(/^[.\s]+/, '')` drops the maximal leading run;
`replace(/[.\s]+$/, '')` drops the maximal trailing run. -/
def sanitiseFilenameL (l : List Char) : List Char :=
  ((l.map fun c => if badFileChar c then '_' else c).dropWhile dotOrSpace).rdropWhile dotOrSpace

/-- `sanitiseFilename` from worker.js. -/
def sanitiseFilename (s : String) : String :=
  String.mk (sanitiseFilenameL s.data)

/-- Spec-side reading of C9, following the claim's words: the nine characters are
*deleted* (not replaced) and leading/trailing runs of dots and whitespace removed. -/
def stripFilenameSpec (s : String) : String :=
  String.mk
    ((((s.data.filter fun c => !badFileChar c).dropWhile dotOrSpace).reverse.dropWhile
        dotOrSpace).reverse)

/-- Spec-side reading of the amended C9: the nine characters are each *replaced by `_`*
and leading/trailing runs of dots and whitespace are removed. -/
def replaceFilenameSpec (s : String) : String :=
  String.mk
    ((((s.data.map fun c => if badFileChar c then '_' else c).dropWhile
          dotOrSpace).reverse.dropWhile dotOrSpace).reverse)

/-! ### `looksLikeSunoLyrics` (worker.js lines 121-132) -/

/-- `t.includes(pat)`: does `pat` occur as a contiguous subsequence of `l`? -/
def hasInfix (l pat : List Char) : Bool :=
  match l with
  | [] => pat.isEmpty
  | _ :: rest => pat.isPrefixOf l || hasInfix rest pat

/-- ASCII letter, the `[A-Za-z]` class. -/
def isAsciiLetter (c : Char) : Bool :=
  ('A' ≤ c && c ≤ 'Z') || ('a' ≤ c && c ≤ 'z')

/-- ASCII digit. -/
def isAsciiDigit (c : Char) : Bool :=
  '0' ≤ c && c ≤ '9'

/-- The `[a-z0-9]` class under the `i` flag: any ASCII letter or digit. -/
def isAsciiAlnum (c : Char) : Bool :=
  isAsciiLetter c || isAsciiDigit c

/-- The `[a-z0-9]` class without the `i` flag: lowercase letters and digits only. -/
def isLowerAlnum (c : Char) : Bool :=
  ('a' ≤ c && c ≤ 'z') || isAsciiDigit c

/-- Maximal runs of characters satisfying `isAsciiLetter`, in order, via an
accumulator of the current (reversed) run. -/
def alphaRunsAux : List Char → List Char → List (List Char)
  | [], acc => if acc.isEmpty then [] else [acc.reverse]
  | c :: rest, acc =>
    if isAsciiLetter c then alphaRunsAux rest (c :: acc)
    else if acc.isEmpty then alphaRunsAux rest []
    else acc.reverse :: alphaRunsAux rest []

/-- The maximal alphabetic runs of a character list. -/
def alphaRuns (l : List Char) : List (List Char) :=
  alphaRunsAux l []

/-- `(t.match(/[A-Za-z]{2,}/g) ?? []).length`: the global regex matches exactly the
maximal alphabetic runs of length at least two, counted with multiplicity. -/
def wordMatchCount (l : List Char) : Nat :=
  ((alphaRuns l).filter fun r => decide (2 ≤ r.length)).length

/-- The *distinct* count used by the claim's wording for C1. -/
def distinctWordCount (l : List Char) : Nat :=
  (((alphaRuns l).filter fun r => decide (2 ≤ r.length)).dedup).length

/-- After a leading run of `alnum` characters, is the next character a colon? -/
def skipThenColon (alnum : Char → Bool) : List Char → Bool
  | [] => false
  | c :: rest => if alnum c then skipThenColon alnum rest else c == ':'

/-- `/^<class>+:/.test t`: a non-empty leading run of `alnum` characters followed
by a colon. -/
def identColonTest (alnum : Char → Bool) : List Char → Bool
  | [] => false
  | c :: rest => alnum c && skipThenColon alnum rest

/-- `t.split('\n').map(l => l.trim()).filter(Boolean).length`. -/
def nonBlankLineCount (l : List Char) : Nat :=
  (((l.splitOn '\n').map jsTrimL).filter fun x => !x.isEmpty).length

/-- Body of `looksLikeSunoLyrics` on the already-trimmed text `t`:
reject if under 80 chars, if it contains a `{"`, `:["$` or `"$L` fragment, if it
starts with a (case-insensitive) alphanumeric run followed by `:`, or if it has
fewer than 4 non-blank lines; accept iff at least 20 word matches remain. -/
def looksLikeSunoLyricsT (t : List Char) : Bool :=
  if t.length < 80 then false
  else if hasInfix t [lbraceChar, '"'] then false
  else if hasInfix t [':', '[', '"', '$'] then false
  else if hasInfix t ['"', '$', 'L'] then false
  else if identColonTest isAsciiAlnum t then false
  else if nonBlankLineCount t < 4 then false
  else decide (20 ≤ wordMatchCount t)

/-- `looksLikeSunoLyrics` from worker.js. -/
def looksLikeSunoLyrics (text : String) : Bool :=
  looksLikeSunoLyricsT (jsTrimL text.data)

/-- The acceptance condition exactly as C1 words it (on the trimmed text):
*distinct* word-tokens, and a *lowercase*-alphanumeric identifier prefix. -/
def specLooksLikeLyricsOrigT (t : List Char) : Bool :=
  decide (80 ≤ t.length) &&
  !hasInfix t [lbraceChar, '"'] &&
  !hasInfix t [':', '[', '"', '$'] &&
  !hasInfix t ['"', '$', 'L'] &&
  !identColonTest isLowerAlnum t &&
  decide (4 ≤ nonBlankLineCount t) &&
  decide (20 ≤ distinctWordCount t)

/-- The "looks like lyrics" predicate exactly as C1 words it. -/
def specLooksLikeLyricsOrig (text : String) : Bool :=
  specLooksLikeLyricsOrigT (jsTrimL text.data)

/-- The acceptance condition as C1 must be amended (on the trimmed text):
word tokens counted with multiplicity, and a case-insensitive identifier test. -/
def specLooksLikeLyricsAmendedT (t : List Char) : Bool :=
  decide (80 ≤ t.length) &&
  !hasInfix t [lbraceChar, '"'] &&
  !hasInfix t [':', '[', '"', '$'] &&
  !hasInfix t ['"', '$', 'L'] &&
  !identColonTest isAsciiAlnum t &&
  decide (4 ≤ nonBlankLineCount t) &&
  decide (20 ≤ wordMatchCount t)

/-- The amended form of C1's predicate. -/
def specLooksLikeLyricsAmended (text : String) : Bool :=
  specLooksLikeLyricsAmendedT (jsTrimL text.data)

/-! ### `checkRateLimit` (worker.js lines 14-27) -/

/-- `RATE_LIMIT_WINDOW = 60_000`. -/
def RATE_LIMIT_WINDOW : Nat := 60000

/-- `RATE_LIMIT_MAX = 15`. -/
def RATE_LIMIT_MAX : Nat := 15

/-- One call of `checkRateLimit`, with the per-client map entry made explicit:
the entry is `none` (client unseen) or `some (start, count)`. Returns the admit
decision and the updated entry. -/
def checkRateLimit (now : Nat) (entry : Option (Nat × Nat)) : Bool × Option (Nat × Nat) :=
  match entry with
  | none => (true, some (now, 1))
  | some (start, count) =>
    if RATE_LIMIT_WINDOW < now - start then (true, some (now, 1))
    else (decide (count + 1 ≤ RATE_LIMIT_MAX), some (start, count + 1))

/-- Run a sequence of calls (given by their times) against one client entry. -/
def runRateLimit : List Nat → Option (Nat × Nat) → List Bool × Option (Nat × Nat)
  | [], st => ([], st)
  | t :: ts, st =>
    let r := checkRateLimit t st
    let rest := runRateLimit ts r.2
    (r.1 :: rest.1, rest.2)

/-! ### Response cache (worker.js lines 29-49) -/

/-- `CACHE_TTL = 5 * 60_000`. -/
def CACHE_TTL : Nat := 300000

/-- A cache entry `{ data, time }`. -/
structure CacheEntry (α : Type) where
  data : α
  time : Nat
  deriving DecidableEq

/-- `Map.prototype.get` on an association list (first match). -/
def cacheGet {α : Type} (m : List (String × CacheEntry α)) (k : String) :
    Option (CacheEntry α) :=
  match m with
  | [] => none
  | (k', e) :: rest => if k' = k then some e else cacheGet rest k

/-- `Map.prototype.delete`. -/
def cacheDelete {α : Type} (m : List (String × CacheEntry α)) (k : String) :
    List (String × CacheEntry α) :=
  m.filter fun p => !(p.1 == k)

/-- `Map.prototype.set`: update in place if the key exists, else append. -/
def cacheSet {α : Type} (m : List (String × CacheEntry α)) (k : String) (e : CacheEntry α) :
    List (String × CacheEntry α) :=
  match m with
  | [] => [(k, e)]
  | (k', e') :: rest => if k' = k then (k', e) :: rest else (k', e') :: cacheSet rest k e

/-- `getCached` from worker.js, with the current time and the map explicit;
returns the looked-up value and the possibly shrunk map. -/
def getCached {α : Type} (now : Nat) (m : List (String × CacheEntry α)) (url : String) :
    Option α × List (String × CacheEntry α) :=
  match cacheGet m url with
  | some e => if now - e.time < CACHE_TTL then (some e.data, m) else (none, cacheDelete m url)
  | none => (none, m)

/-- `setCache` from worker.js: insert with the current timestamp, then, if the map
has grown past 200 entries, delete every entry older than the TTL. -/
def setCache {α : Type} (now : Nat) (m : List (String × CacheEntry α)) (url : String)
    (d : α) : List (String × CacheEntry α) :=
  let m1 := cacheSet m url ⟨d, now⟩
  if 200 < m1.length then m1.filter fun p => !(CACHE_TTL < now - p.2.time) else m1

/-- A 201-entry cache whose keys are the one-character strings for code points
32 through 232 and whose entries were all inserted at time 0. -/
def cacheWitnessMap : List (String × CacheEntry Nat) :=
  (List.range 201).map fun i => (String.mk [Char.ofNat (32 + i)], ⟨0, 0⟩)

/-! ### `validateUrl` (worker.js lines 251-270) and the platform URL parser -/

/-- ASCII lowercasing of one character. -/
def toLowerChar (c : Char) : Char :=
  if 'A' ≤ c ∧ c ≤ 'Z' then Char.ofNat (c.toNat + 32) else c

/-- ASCII lowercasing of a character list. -/
def lowerL (l : List Char) : List Char :=
  l.map toLowerChar

/-- `String.prototype.toLowerCase` (ASCII fragment). -/
def lowerStr (s : String) : String :=
  String.mk (lowerL s.data)

/-- A scheme character after the first: letter, digit, `+`, `-` or `.`. -/
def isSchemeChar (c : Char) : Bool :=
  isAsciiLetter c || isAsciiDigit c || c = '+' || c = '-' || c = '.'

/-- A valid URL scheme: a letter followed by scheme characters. -/
def validScheme (s : List Char) : Bool :=
  match s with
  | [] => false
  | c :: cs => isAsciiLetter c && cs.all isSchemeChar

/-- ASCII hex digit. -/
def isAsciiHexDigit (c : Char) : Bool :=
  isAsciiDigit c || ('a' ≤ c && c ≤ 'f') || ('A' ≤ c && c ≤ 'F')

/-- Characters allowed inside an IPv6 bracket host. -/
def isIpv6Char (c : Char) : Bool :=
  isAsciiHexDigit c || c = ':' || c = '.'

/-- The WHATWG forbidden host code points (plus `%`, whose decoding this model
does not attempt). -/
def hostForbiddenChar (c : Char) : Bool :=
  c = Char.ofNat 0 || c = '\t' || c = '\n' || c = '\r' || c = ' ' || c = '#' || c = '/' ||
  c = ':' || c = '<' || c = '>' || c = '?' || c = '@' || c = '[' || c = '\\' || c = ']' ||
  c = '^' || c = '|' || c = '%'

/-- The result of `new URL(...)` restricted to the fields worker.js reads:
`protocol` (lowercased, with its trailing colon), `hostname` (lowercased; an
IPv6 host keeps its surrounding brackets, so the hostname of `https://[::1]/`
is `[::1]`), and `pathname`. -/
structure URLParts where
  protocol : String
  hostname : String
  pathname : String
  deriving DecidableEq

/-- Parse the host[:port] part of an authority; returns the hostname characters.
An IPv6 host is the bracketed text, lowercased, brackets kept, as the WHATWG URL
standard serialises it. -/
def parseHostPort (hp : List Char) : Option (List Char) :=
  match hp with
  | '[' :: r =>
    let inner := r.takeWhile (fun c => c != ']')
    match r.drop inner.length with
    | ']' :: portPart =>
      if inner.isEmpty then none
      else if !inner.all isIpv6Char then none
      else
        match portPart with
        | [] => some ('[' :: (lowerL inner ++ [']']))
        | ':' :: digits =>
          if digits.all isAsciiDigit then some ('[' :: (lowerL inner ++ [']'])) else none
        | _ => none
    | _ => none
  | _ =>
    let host := hp.takeWhile (fun c => c != ':')
    let portPart := hp.drop host.length
    if host.isEmpty then none
    else if host.any hostForbiddenChar then none
    else
      match portPart with
      | [] => some (lowerL host)
      | ':' :: digits => if digits.all isAsciiDigit then some (lowerL host) else none
      | _ => none

/-- Modelled from the platform: worker.js calls the WHATWG `new URL(url)` parser,
which is not code of this repository. This model covers the fragment the worker
observes: scheme validation, `://`, optional userinfo stripped at the last `@`,
host[:port] with bracketed IPv6 hosts (brackets kept in `hostname`), the path up
to `?` or `#` (defaulting to `/`), and parse failure (`none`) for malformed
input, on which `new URL` throws. -/
def parseURLChars (l : List Char) : Option URLParts :=
  let scheme := l.takeWhile (fun c => c != ':')
  if !validScheme scheme then none
  else
    match l.drop scheme.length with
    | ':' :: '/' :: '/' :: r =>
      let authority := r.takeWhile (fun c => !(c == '/' || c == '?' || c == '#'))
      let pathRest := r.drop authority.length
      let path := pathRest.takeWhile (fun c => !(c == '?' || c == '#'))
      let hostport := (authority.reverse.takeWhile (fun c => c != '@')).reverse
      match parseHostPort hostport with
      | none => none
      | some host =>
        some ⟨String.mk (lowerL scheme ++ [':']), String.mk host,
          String.mk (if path.isEmpty then ['/'] else path)⟩
    | _ => none

/-- `new URL` on a string. -/
def parseURL (url : String) : Option URLParts :=
  parseURLChars url.data

/-- The anchored alternation of worker.js line 262, as the list of its prefix
strings: `/^(127\.|10\.|192\.168\.|172\.(1[6-9]|2\d|3[01])\.|0\.|169\.254\.|::1|fc|fd|fe80)/`. -/
def privateHostPatterns : List String :=
  ["127.", "10.", "192.168.",
   "172.16.", "172.17.", "172.18.", "172.19.", "172.20.", "172.21.", "172.22.",
   "172.23.", "172.24.", "172.25.", "172.26.", "172.27.", "172.28.", "172.29.",
   "172.30.", "172.31.",
   "0.", "169.254.", "::1", "fc", "fd", "fe80"]

/-- `validateUrl` from worker.js: `null` (here `none`) means the URL is accepted;
otherwise the rejection reason is returned. It is a pure function of its input:
no network request is modelled or needed. -/
def validateUrl (url : String) : Option String :=
  match parseURL url with
  | none => some "Invalid URL"
  | some parsed =>
    if parsed.protocol ≠ "https:" ∧ parsed.protocol ≠ "http:" then
      some "Only HTTP/HTTPS URLs are supported"
    else
      let host := lowerStr parsed.hostname
      if privateHostPatterns.any (fun pre => pre.data.isPrefixOf host.data) then
        some "Private or reserved addresses are not allowed"
      else if host = "localhost" ∨ host = "[::1]" then
        some "Private or reserved addresses are not allowed"
      else none

/-! ### Suno lyrics extraction (worker.js lines 100-215) -/

/-- Global replacement of a literal pattern (`String.prototype.replace` with a
global literal regex); the fuel argument makes totality obvious. -/
def replaceAllAux (pat rep : List Char) : Nat → List Char → List Char
  | 0, s => s
  | _ + 1, [] => []
  | fuel + 1, s@(c :: rest) =>
    if pat.isPrefixOf s then rep ++ replaceAllAux pat rep fuel (s.drop pat.length)
    else c :: replaceAllAux pat rep fuel rest

/-- `s.replace(<literal>/g, rep)`. -/
def replaceAll (s pat rep : List Char) : List Char :=
  replaceAllAux pat rep s.length s

/-- `normaliseSunoEscapes` from worker.js: undo `\"`, `<`, `>`,
`&` and `\n` escapes, in that order. -/
def normaliseSunoEscapes (s : List Char) : List Char :=
  let s1 := replaceAll s ['\\', '"'] ['"']
  let s2 := replaceAll s1 ['\\', 'u', '0', '0', '3', 'c'] ['<']
  let s3 := replaceAll s2 ['\\', 'u', '0', '0', '3', 'e'] ['>']
  let s4 := replaceAll s3 ['\\', 'u', '0', '0', '2', '6'] ['&']
  replaceAll s4 ['\\', 'n'] ['\n']

/-- Index of the first occurrence of `pat` in a list, if any. -/
def findSubIdx (pat : List Char) : List Char → Option Nat
  | [] => if pat.isEmpty then some 0 else none
  | s@(_ :: rest) =>
    if pat.isPrefixOf s then some 0
    else (findSubIdx pat rest).map (· + 1)

/-- The opening text matched by the flight-chunk regex. -/
def pushMarker : List Char := "self.__next_f.push([1,\"".data

/-- The closing text matched (lazily) by the flight-chunk regex. -/
def chunkEnd : List Char := "\"])</script>".data

/-- The `"clip":{` marker. -/
def clipMarker : List Char := "\"clip\":".data ++ [lbraceChar]

/-- Worker loop of `extractSunoFlightChunks`: find the push marker, lazily
capture up to the first closing text, normalise the capture, continue after it. -/
def extractChunksAux : Nat → List Char → List (List Char)
  | 0, _ => []
  | fuel + 1, s =>
    match findSubIdx pushMarker s with
    | none => []
    | some i =>
      let afterMarker := s.drop (i + pushMarker.length)
      match findSubIdx chunkEnd afterMarker with
      | none => []
      | some j =>
        normaliseSunoEscapes (afterMarker.take j) ::
          extractChunksAux fuel (afterMarker.drop (j + chunkEnd.length))

/-- `extractSunoFlightChunks` from worker.js. -/
def extractSunoFlightChunks (html : List Char) : List (List Char) :=
  extractChunksAux html.length html

/-- `looksLikeSunoLyrics` applied to a chunk (a character list). -/
def looksLikeSunoLyricsL (l : List Char) : Bool :=
  looksLikeSunoLyricsT (jsTrimL l)

/-- `/^\$\d+$/.test`: a `$` followed by one or more digits and nothing else. -/
def isRefToken (l : List Char) : Bool :=
  match l with
  | '$' :: rest => !rest.isEmpty && rest.all isAsciiDigit
  | _ => false

/-- `/^\[instrumental\]$/i.test`. -/
def isInstrumental (l : List Char) : Bool :=
  lowerL l == "[instrumental]".data

/-- `resolveSunoPromptToken` from worker.js: look the token's id up among the
flight chunks, scan up to 7 chunks ahead for lyrics-looking text, then try the
chunk just before the `"clip":{` chunk, then the first lyrics-looking chunk. -/
def resolveSunoPromptToken (html : List Char) (token : List Char) : Option (List Char) :=
  if !isRefToken token then none
  else
    let chunks := extractSunoFlightChunks html
    let id := token.drop 1
    let ti := chunks.findIdx? fun c => hasInfix c (id ++ [':', 'T']) || hasInfix c (id ++ [':'])
    let fromToken :=
      match ti with
      | some t => ((chunks.drop (t + 1)).take 7).find? looksLikeSunoLyricsL
      | none => none
    match fromToken with
    | some c => some (jsTrimL c)
    | none =>
      let ci := chunks.findIdx? fun c => hasInfix c clipMarker
      let fromClip :=
        match ci with
        | some i =>
          if i = 0 then none
          else
            match chunks.get? (i - 1) with
            | some c => if looksLikeSunoLyricsL c then some (jsTrimL c) else none
            | none => none
        | none => none
      match fromClip with
      | some c => some c
      | none =>
        match chunks.find? looksLikeSunoLyricsL with
        | some c => some (jsTrimL c)
        | none => none

/-- State machine of `extractJsonObject`: brace depth, in-string flag, escape
flag; returns the relative index of the closing brace of the first balanced
object. -/
def extractJsonObjAux : List Char → Nat → Bool → Bool → Nat → Option Nat
  | [], _, _, _, _ => none
  | ch :: rest, depth, inStr, esc, idx =>
    if inStr then
      if esc then extractJsonObjAux rest depth inStr false (idx + 1)
      else if ch = '\\' then extractJsonObjAux rest depth inStr true (idx + 1)
      else if ch = '"' then extractJsonObjAux rest depth false false (idx + 1)
      else extractJsonObjAux rest depth inStr false (idx + 1)
    else
      if ch = '"' then extractJsonObjAux rest depth true false (idx + 1)
      else if ch = lbraceChar then extractJsonObjAux rest (depth + 1) inStr esc (idx + 1)
      else if ch = rbraceChar then
        if depth = 1 then some idx
        else extractJsonObjAux rest (depth - 1) inStr esc (idx + 1)
      else extractJsonObjAux rest depth inStr esc (idx + 1)

/-- `extractJsonObject` from worker.js: the balanced-brace slice starting at
`start`, skipping braces inside quoted strings (with backslash escapes). -/
def extractJsonObject (src : List Char) (start : Nat) : Option (List Char) :=
  match (src.drop start).head? with
  | some c =>
    if c = lbraceChar then
      match extractJsonObjAux (src.drop start) 0 false false 0 with
      | some i => some ((src.drop start).take (i + 1))
      | none => none
    else none
  | none => none

/-- The fields of the parsed `clip.metadata` object that worker.js reads. -/
structure SunoMeta where
  displayed_lyrics : Option (List Char)
  prompt : Option (List Char)

/-- The fields of the parsed `clip` object that worker.js reads; `metadata` is
`none` when absent or not an object. -/
structure SunoClip where
  displayed_lyrics : Option (List Char)
  metadata : Option SunoMeta

/-- JS `b || ''` for an optional string field (empty and absent are falsy). -/
def jsOr1 (b : Option (List Char)) : List Char :=
  match b with
  | some t => if !t.isEmpty then t else []
  | none => []

/-- JS `a || b || ''` for optional string fields. -/
def jsOrEmpty (a b : Option (List Char)) : List Char :=
  match a with
  | some s => if !s.isEmpty then s else jsOr1 b
  | none => jsOr1 b

/-- `extractSunoLyrics` from worker.js. `JSON.parse` is the platform's parser,
not code of this repository, so it enters as the oracle `jsonParse`; its `none`
result models a parse exception, which the source catches, returning `null`.
Prefer `displayed_lyrics` (top level, then metadata) unless it is empty, a `$n`
reference token, or the instrumental marker; otherwise resolve the `prompt`
field, chasing a reference token through the flight chunks. -/
def extractSunoLyrics (jsonParse : List Char → Option SunoClip) (html : List Char) :
    Option (List Char) :=
  let norm := normaliseSunoEscapes html
  match findSubIdx clipMarker norm with
  | none => none
  | some clipIdx =>
    match findSubIdx [lbraceChar] (norm.drop (clipIdx + 7)) with
    | none => none
    | some rel =>
      match extractJsonObject norm (clipIdx + 7 + rel) with
      | none => none
      | some clipJson =>
        match jsonParse clipJson with
        | none => none
        | some clip =>
          let meta := clip.metadata.getD ⟨none, none⟩
          let displayed := jsTrimL (jsOrEmpty clip.displayed_lyrics meta.displayed_lyrics)
          if !displayed.isEmpty ∧ !isRefToken displayed ∧ !isInstrumental displayed then
            some (displayed.take 20000)
          else
            let prompt := jsTrimL (jsOr1 meta.prompt)
            if prompt.isEmpty then none
            else if isInstrumental prompt then none
            else
              match (if isRefToken prompt then resolveSunoPromptToken html prompt
                else some prompt) with
              | none => none
              | some r => if isRefToken r then none else some (r.take 20000)

/-- A character allowed by the song-id regex `/^[0-9a-fA-F-]{36}$/`. -/
def isSunoIdChar (c : Char) : Bool :=
  isAsciiHexDigit c || c = '-'

/-- The path checks of `fetchSunoLyrics`: split the pathname on `/`, drop empty
segments, require `song/<36 hex-or-hyphen chars>`. -/
def sunoSongId (u : URLParts) : Option (List Char) :=
  match (u.pathname.data.splitOn '/').filter (fun p => !p.isEmpty) with
  | p0 :: id :: _ =>
    if p0 = "song".data then
      if id.length = 36 ∧ id.all isSunoIdChar then some id else none
    else none
  | _ => none

/-- The observable part of a `fetch` response: `res.ok` and `await res.text()`. -/
structure FetchResponse where
  ok : Bool
  body : List Char

/-- Body of `fetchSunoLyrics` (inside its `try`): network access is the oracle
`f` (its `none` models a thrown network error), `JSON.parse` is the oracle `j`.
An `Except.error` is a thrown exception, to be caught by the wrapper below. -/
def fetchSunoLyricsE (f : String → Option FetchResponse) (j : List Char → Option SunoClip)
    (pageUrl : String) : Except String (Option (List Char)) :=
  match parseURL pageUrl with
  | none => Except.error "Invalid URL"
  | some u =>
    if u.hostname ≠ "suno.com" ∧ u.hostname ≠ "www.suno.com" then Except.ok none
    else
      match sunoSongId u with
      | none => Except.ok none
      | some id =>
        match f ("https://suno.com/embed/" ++ String.mk id) with
        | none => Except.error "TypeError: fetch failed"
        | some res =>
          if !res.ok then Except.ok none
          else Except.ok (extractSunoLyrics j res.body)

/-- `fetchSunoLyrics` from worker.js: the catch-all converts every thrown
exception to `null`. -/
def fetchSunoLyrics (f : String → Option FetchResponse) (j : List Char → Option SunoClip)
    (pageUrl : String) : Option (List Char) :=
  match fetchSunoLyricsE f j pageUrl with
  | Except.ok r => r
  | Except.error _ => none

/-- A fetch oracle that always throws (network error). -/
def alwaysFailFetch : String → Option FetchResponse := fun _ => none

/-- A `JSON.parse` oracle that always throws (malformed JSON). -/
def alwaysFailJson : List Char → Option SunoClip := fun _ => none

/-! ### `extractMeta` (worker.js lines 51-76) and the audio-tag loop (lines 305-317)

The two regexes of `extractMeta`,

  `<meta[^>]+(?:property|name)=["']TAG["'][^>]+content=["']([^"']+)["']` and
  `<meta[^>]+content=["']([^"']+)["'][^>]+(?:property|name)=["']TAG["']`,

both constructed with the `'i'` flag, are embedded as explicit scanners: a match
starts at the literal `<meta`, each `[^>]+` walks forward (at least one
character, never crossing `>`) to the next attribute token, an attribute token
is `property`/`name`/`content`, `=`, a quote, (for the identifying attribute)
the tag text and a quote, and the capture is the maximal run of non-quote
characters after the content quote, taken from the page in its original case.
The `'i'` flag makes every literal comparison case-insensitive; it is modelled
by comparing ASCII-lowercase foldings of both characters, which coincides with
the JavaScript canonicalisation whenever the pattern character is ASCII (all
tags the worker passes are ASCII, and a non-ASCII page character never matches
an ASCII pattern character case-insensitively), while the `[^>]` and `[^"']`
classes contain only caseless characters and are unaffected. -/

/-- `dropLit pat s` matches the literal `pat` case-insensitively (the regexes
carry the `'i'` flag) at the start of `s` and returns the rest of `s`. -/
def dropLit : List Char → List Char → Option (List Char)
  | [], s => some s
  | _ :: _, [] => none
  | p :: ps, c :: cs => if toLowerChar p = toLowerChar c then dropLit ps cs else none

/-- The `["']` class. -/
def quoteChar (c : Char) : Bool :=
  c = '"' || c = squoteChar

/-- The sixteen literal forms of `(?:property|name)=["']TAG["']`. -/
def attrTokens (tag : List Char) : List (List Char) :=
  ["property".data, "name".data].flatMap fun kw =>
    ['"', squoteChar].flatMap fun q1 =>
      ['"', squoteChar].map fun q2 => kw ++ '=' :: q1 :: (tag ++ [q2])

/-- The two literal forms of `content=["']`. -/
def contentTokens : List (List Char) :=
  ['"', squoteChar].map fun q => "content=".data ++ [q]

/-- Try every token at this position; first hit wins. -/
def tryTokens (toks : List (List Char)) (s : List Char) : Option (List Char) :=
  toks.findSome? fun t => dropLit t s

/-- `[^>]+` followed by one of the tokens: consume at least one non-`>` character,
then try the tokens at each subsequent position, stopping at `>`. -/
def scanWindow (toks : List (List Char)) : List Char → Option (List Char)
  | [] => none
  | c :: rest =>
    if c = '>' then none
    else
      match tryTokens toks rest with
      | some r => some r
      | none => scanWindow toks rest

/-- `(["'])([^"']+)["']` after the opening quote: the capture is the maximal
non-quote run, which must be non-empty and followed by a quote. -/
def readCap (s : List Char) : Option (List Char × List Char) :=
  let cap := s.takeWhile fun c => !quoteChar c
  match s.drop cap.length with
  | [] => none
  | _ :: rest' => if cap.isEmpty then none else some (cap, rest')

/-- Pattern 1 after the literal `<meta`: identifying attribute, then content. -/
def matchP1After (tag : List Char) (s : List Char) : Option (List Char) :=
  match scanWindow (attrTokens tag) s with
  | none => none
  | some r1 =>
    match scanWindow contentTokens r1 with
    | none => none
    | some r2 => (readCap r2).map Prod.fst

/-- Pattern 2 after the literal `<meta`: content capture, then identifying
attribute. -/
def matchP2After (tag : List Char) (s : List Char) : Option (List Char) :=
  match scanWindow contentTokens s with
  | none => none
  | some r1 =>
    match readCap r1 with
    | none => none
    | some (cap, r2) =>
      match scanWindow (attrTokens tag) r2 with
      | none => none
      | some _ => some cap

/-- The literal `<meta`. -/
def metaLit : List Char := "<meta".data

/-- Leftmost match: try the pattern at every position; a match must start at a
literal `<meta`. -/
def scanFor (matchAfter : List Char → Option (List Char)) : List Char → Option (List Char)
  | [] => none
  | s@(_ :: rest) =>
    match dropLit metaLit s with
    | some after =>
      match matchAfter after with
      | some cap => some cap
      | none => scanFor matchAfter rest
    | none => scanFor matchAfter rest

/-- `extractMeta` from worker.js on character lists: pattern 1 anywhere in the
page first, then pattern 2. -/
def extractMetaL (html tag : List Char) : Option (List Char) :=
  match scanFor (matchP1After tag) html with
  | some v => some v
  | none => scanFor (matchP2After tag) html

/-- `extractMeta` from worker.js. -/
def extractMeta (html tag : String) : Option String :=
  (extractMetaL html.data tag.data).map String.mk

/-- `META_TAGS` from worker.js, in priority order. -/
def META_TAGS : List String :=
  ["og:audio", "og:audio:url", "og:audio:secure_url", "twitter:player:stream"]

/-- The audio-url loop of `extractAudioInfo` (worker.js lines 305-313): the first
tag in priority order whose `extractMeta` is non-null, with the tag name. -/
def findAudio (html : String) : Option (String × String) :=
  META_TAGS.findSome? fun tag => (extractMeta html tag).map fun v => (v, tag)

/-- A rendered `<meta>` element: its tag name, its content, and whether the
`content` attribute is written before the identifying attribute. -/
structure MetaTag where
  name : List Char
  content : List Char
  contentFirst : Bool

/-- Render one meta element in either attribute order. -/
def renderTag (t : MetaTag) : List Char :=
  if t.contentFirst then
    "<meta content=\"".data ++ t.content ++ "\" property=\"".data ++ t.name ++ "\">".data
  else
    "<meta property=\"".data ++ t.name ++ "\" content=\"".data ++ t.content ++ "\">".data

/-- Render a page: the concatenation of its meta elements. -/
def renderPage (ts : List MetaTag) : List Char :=
  (ts.map renderTag).flatten

/-- A benign attribute character: no quotes, no angle brackets, no `=`. -/
def goodChar (c : Char) : Bool :=
  !(c = '"' || c = squoteChar || c = '<' || c = '>' || c = '=')

/-- Well-formedness of a rendered tag: non-empty name and content of benign
characters. -/
def wfTag (t : MetaTag) : Prop :=
  t.name ≠ [] ∧ (∀ c ∈ t.name, goodChar c = true) ∧
  t.content ≠ [] ∧ (∀ c ∈ t.content, goodChar c = true)

/-- The body of a property-first rendered tag after `<meta`. -/
def pfBody (N C rest : List Char) : List Char :=
  ' ' :: ("property=".data ++ '"' :: (N ++ '"' :: (" content=".data ++ '"' ::
    (C ++ '"' :: '>' :: rest))))

/-- The body of a content-first rendered tag after `<meta`. -/
def cfBody (N C rest : List Char) : List Char :=
  ' ' :: ("content=".data ++ '"' :: (C ++ '"' :: (" property=".data ++ '"' ::
    (N ++ '"' :: '>' :: rest))))

/-- The chrome of a property-first body: everything before the trailing rest. -/
def pfChrome (N C : List Char) : List Char :=
  ' ' :: ("property=".data ++ '"' :: (N ++ '"' :: (" content=".data ++ '"' ::
    (C ++ ['"', '>']))))

/-- The chrome of a content-first body. -/
def cfChrome (N C : List Char) : List Char :=
  ' ' :: ("content=".data ++ '"' :: (C ++ '"' :: (" property=".data ++ '"' ::
    (N ++ ['"', '>']))))

instance wfTagDecidable (t : MetaTag) : Decidable (wfTag t) := by
  unfold wfTag
  exact inferInstance

/-! ### Generic list lemmas used throughout -/

theorem dropWhile_head_false {α : Type} {p : α → Bool} :
    ∀ {l : List α} {a : α} {r : List α}, List.dropWhile p l = a :: r → p a = false := by
  intro l
  induction l with
  | nil => intro a r h; simp [List.dropWhile] at h
  | cons x xs ih =>
    intro a r h
    rw [List.dropWhile_cons] at h
    split at h
    · exact ih h
    · cases h
      rename_i hx
      simpa using hx

theorem dropWhile_eq_self_of_head {α : Type} {p : α → Bool} {l : List α}
    (h : ∀ a r, l = a :: r → p a = false) : List.dropWhile p l = l := by
  cases l with
  | nil => rfl
  | cons a r =>
    rw [List.dropWhile_cons, if_neg]
    simp [h a r rfl]

theorem dropWhile_idem {α : Type} (p : α → Bool) (l : List α) :
    List.dropWhile p (List.dropWhile p l) = List.dropWhile p l := by
  apply dropWhile_eq_self_of_head
  intro a r h
  exact dropWhile_head_false h

theorem rdropWhile_idem {α : Type} (p : α → Bool) (l : List α) :
    List.rdropWhile p (List.rdropWhile p l) = List.rdropWhile p l := by
  unfold List.rdropWhile
  rw [List.reverse_reverse, dropWhile_idem]

theorem mem_of_mem_dropWhile {α : Type} {p : α → Bool} {l : List α} {a : α}
    (h : a ∈ List.dropWhile p l) : a ∈ l :=
  (List.dropWhile_sublist p (l := l)).subset h

theorem mem_of_mem_rdropWhile {α : Type} {p : α → Bool} {l : List α} {a : α}
    (h : a ∈ List.rdropWhile p l) : a ∈ l := by
  unfold List.rdropWhile at h
  rw [List.mem_reverse] at h
  exact List.mem_reverse.mp (mem_of_mem_dropWhile h)

theorem map_eq_self_of_fixed {α : Type} {f : α → α} {l : List α}
    (h : ∀ a ∈ l, f a = a) : l.map f = l := by
  induction l with
  | nil => rfl
  | cons x xs ih =>
    simp only [List.map_cons]
    rw [h x (by simp), ih fun a ha => h a (by simp [ha])]

/-- The head (if any) of `rdropWhile p l` is the head of `l`. -/
theorem rdropWhile_head_eq {α : Type} {p : α → Bool} {l : List α} {a : α} {r : List α}
    (h : List.rdropWhile p l = a :: r) : ∃ r', l = a :: r' := by
  obtain ⟨t, ht⟩ := List.rdropWhile_prefix p l
  rw [h] at ht
  exact ⟨r ++ t, ht.symm⟩

/-- The last element (as `getLast?`) of `rdropWhile p l` fails `p`. -/
theorem rdropWhile_getLast_false {α : Type} {p : α → Bool} {l : List α} {c : α}
    (h : (List.rdropWhile p l).getLast? = some c) : p c = false := by
  unfold List.rdropWhile at h
  rw [List.getLast?_reverse] at h
  rcases hx : List.dropWhile p l.reverse with _ | ⟨a, r⟩
  · rw [hx] at h; simp at h
  · rw [hx] at h
    simp only [List.head?_cons, Option.some.injEq] at h
    subst h
    exact dropWhile_head_false hx

theorem badFileChar_of_mem_sanitised {l : List Char} {c : Char}
    (h : c ∈ sanitiseFilenameL l) : badFileChar c = false := by
  unfold sanitiseFilenameL at h
  have h1 : c ∈ (l.map fun c => if badFileChar c then '_' else c) :=
    mem_of_mem_dropWhile (mem_of_mem_rdropWhile h)
  rcases List.mem_map.mp h1 with ⟨a, _, rfl⟩
  by_cases hb : badFileChar a = true
  · rw [if_pos hb]; decide
  · rw [if_neg hb]; simpa using hb

theorem sanitised_fixed_point_chars {l : List Char} {c : Char} (h : c ∈ sanitiseFilenameL l) :
    (if badFileChar c then '_' else c) = c := by
  rw [badFileChar_of_mem_sanitised h]
  simp

theorem sanitiseFilenameL_idem (l : List Char) :
    sanitiseFilenameL (sanitiseFilenameL l) = sanitiseFilenameL l := by
  have hmap : (sanitiseFilenameL l).map (fun c => if badFileChar c then '_' else c) =
      sanitiseFilenameL l :=
    map_eq_self_of_fixed fun a ha => sanitised_fixed_point_chars ha
  have hdrop : (sanitiseFilenameL l).dropWhile dotOrSpace = sanitiseFilenameL l := by
    apply dropWhile_eq_self_of_head
    intro a r h
    obtain ⟨r', hr'⟩ := rdropWhile_head_eq (p := dotOrSpace) (l :=
      ((l.map fun c => if badFileChar c then '_' else c).dropWhile dotOrSpace)) h
    exact dropWhile_head_false hr'
  have hstep : sanitiseFilenameL (sanitiseFilenameL l) =
      (((sanitiseFilenameL l).map fun c => if badFileChar c then '_' else c).dropWhile
        dotOrSpace).rdropWhile dotOrSpace := rfl
  rw [hstep, hmap, hdrop]
  unfold sanitiseFilenameL
  exact rdropWhile_idem dotOrSpace _

/-- Claim C8: filename sanitisation is idempotent, its output contains none of the
nine forbidden characters `/ \ : * ? " < > |`, and the output neither starts nor
ends with a dot or whitespace. -/
theorem sanitiseFilename_idem_safe (s : String) :
    sanitiseFilename (sanitiseFilename s) = sanitiseFilename s ∧
    (∀ c ∈ (sanitiseFilename s).data, badFileChar c = false) ∧
    (∀ c, (sanitiseFilename s).data.head? = some c → dotOrSpace c = false) ∧
    (∀ c, (sanitiseFilename s).data.getLast? = some c → dotOrSpace c = false) := by
  refine ⟨?_, ?_, ?_, ?_⟩
  · show String.mk (sanitiseFilenameL (sanitiseFilenameL s.data)) = _
    rw [sanitiseFilenameL_idem]
    rfl
  · intro c hc
    exact badFileChar_of_mem_sanitised hc
  · intro c hc
    rcases hx : sanitiseFilenameL s.data with _ | ⟨a, r⟩
    · change (sanitiseFilenameL s.data).head? = some c at hc
      rw [hx] at hc; simp at hc
    · change (sanitiseFilenameL s.data).head? = some c at hc
      rw [hx] at hc
      simp only [List.head?_cons, Option.some.injEq] at hc
      subst hc
      obtain ⟨r', hr'⟩ := rdropWhile_head_eq (p := dotOrSpace)
        (l := ((s.data.map fun c => if badFileChar c then '_' else c).dropWhile dotOrSpace)) hx
      exact dropWhile_head_false hr'
  · intro c hc
    change (sanitiseFilenameL s.data).getLast? = some c at hc
    exact rdropWhile_getLast_false hc

/-- Witness for C8 at the concrete input `"a: b."`. -/
theorem sanitiseFilename_idem_safe_witness :
    sanitiseFilename (sanitiseFilename "a: b.") = sanitiseFilename "a: b." ∧
    badFileChar 'a' = false ∧ dotOrSpace 'a' = false ∧ dotOrSpace 'b' = false := by
  have h := sanitiseFilename_idem_safe "a: b."
  refine ⟨h.1, ?_, ?_, ?_⟩
  · exact h.2.1 'a' (by decide)
  · exact h.2.2.1 'a' (by decide)
  · exact h.2.2.2 'b' (by decide)

/-- Counterexample to C9 as stated: the code *replaces* the nine characters with `_`
rather than deleting them, so on `"a/b"` it returns `"a_b"`, not `"ab"`. -/
theorem sanitiseFilename_not_strip :
    sanitiseFilename "a/b" = "a_b" ∧ stripFilenameSpec "a/b" = "ab" ∧
    sanitiseFilename "a/b" ≠ stripFilenameSpec "a/b" := by
  refine ⟨by decide, by decide, by decide⟩

/-- Claim C9 (amended): for every input, `sanitiseFilename` returns the input with
every occurrence of the nine characters `/ \ : * ? " < > |` replaced by `_` and
leading/trailing runs of dots and whitespace removed. -/
theorem sanitiseFilename_eq_replaceSpec (s : String) :
    sanitiseFilename s = replaceFilenameSpec s := rfl

set_option maxRecDepth 40000 in
/-- Counterexample to C1 as stated, in both directions at once.
The first input consists of the one word `la` repeated (32 word matches but a
single distinct token): the code accepts it while the claim's conjunction rejects
it. The second starts with the uppercase run `ABC:` and has 22 distinct words:
the code rejects it (its identifier regex is case-insensitive) while the claim
accepts it. -/
theorem looksLikeSunoLyrics_counterexample :
    (looksLikeSunoLyrics
        "la la la la la la la la\nla la la la la la la la\nla la la la la la la la\nla la la la la la la la" = true ∧
      specLooksLikeLyricsOrig
        "la la la la la la la la\nla la la la la la la la\nla la la la la la la la\nla la la la la la la la" = false) ∧
    (looksLikeSunoLyrics
        "ABC: alpha bravo charlie delta echo\nfoxtrot golf hotel india juliet\nkilo lima mike november oscar\npapa quebec romeo sierra tango uniform" = false ∧
      specLooksLikeLyricsOrig
        "ABC: alpha bravo charlie delta echo\nfoxtrot golf hotel india juliet\nkilo lima mike november oscar\npapa quebec romeo sierra tango uniform" = true) :=
  ⟨⟨by decide, by decide⟩, ⟨by decide, by decide⟩⟩

theorem looksLikeSunoLyricsT_iff (t : List Char) :
    looksLikeSunoLyricsT t = specLooksLikeLyricsAmendedT t := by
  unfold looksLikeSunoLyricsT specLooksLikeLyricsAmendedT
  rcases Nat.lt_or_ge t.length 80 with h1 | h1
  · simp [h1, Nat.not_le.mpr h1]
  · rw [if_neg (Nat.not_lt.mpr h1), decide_eq_true h1, Bool.true_and]
    by_cases h2 : hasInfix t [lbraceChar, '"'] = true
    · simp [h2]
    · rw [Bool.not_eq_true] at h2
      rw [if_neg (by simp [h2]), h2]
      simp only [Bool.not_false, Bool.true_and]
      by_cases h3 : hasInfix t [':', '[', '"', '$'] = true
      · simp [h3]
      · rw [Bool.not_eq_true] at h3
        rw [if_neg (by simp [h3]), h3]
        simp only [Bool.not_false, Bool.true_and]
        by_cases h4 : hasInfix t ['"', '$', 'L'] = true
        · simp [h4]
        · rw [Bool.not_eq_true] at h4
          rw [if_neg (by simp [h4]), h4]
          simp only [Bool.not_false, Bool.true_and]
          by_cases h5 : identColonTest isAsciiAlnum t = true
          · simp [h5]
          · rw [Bool.not_eq_true] at h5
            rw [if_neg (by simp [h5]), h5]
            simp only [Bool.not_false, Bool.true_and]
            rcases Nat.lt_or_ge (nonBlankLineCount t) 4 with h6 | h6
            · simp [h6, Nat.not_le.mpr h6]
            · rw [if_neg (Nat.not_lt.mpr h6), decide_eq_true h6, Bool.true_and]

/-- Claim C1 (amended): `looksLikeSunoLyrics` accepts a candidate text if and only
if all of the following hold simultaneously: the trimmed text has length ≥ 80; it
contains no `{"` fragment and no `:["$` or `"$L` fragment; it does not start with
an alphanumeric run (of either case, per the regex's `i` flag) followed by `:`;
it splits into ≥ 4 non-blank lines; and it contains ≥ 20 alphabetic word-token
matches of length ≥ 2, counted with multiplicity. -/
theorem looksLikeSunoLyrics_iff (text : String) :
    looksLikeSunoLyrics text = specLooksLikeLyricsAmended text :=
  looksLikeSunoLyricsT_iff (jsTrimL text.data)

theorem runRateLimit_within (t0 : Nat) :
    ∀ (ts : List Nat) (n : Nat), (∀ t ∈ ts, t ≤ t0 + RATE_LIMIT_WINDOW) →
      runRateLimit ts (some (t0, n)) =
        ((List.range ts.length).map fun i => decide (n + i + 1 ≤ RATE_LIMIT_MAX),
          some (t0, n + ts.length)) := by
  intro ts
  induction ts with
  | nil => intro n _; simp [runRateLimit]
  | cons t ts ih =>
    intro n hin
    have ht : t ≤ t0 + RATE_LIMIT_WINDOW := hin t (by simp)
    have hno : ¬ (RATE_LIMIT_WINDOW < t - t0) := by
      unfold RATE_LIMIT_WINDOW at *
      omega
    have hcheck : checkRateLimit t (some (t0, n)) =
        (decide (n + 1 ≤ RATE_LIMIT_MAX), some (t0, n + 1)) := by
      simp only [checkRateLimit, if_neg hno]
    have hrest := ih (n + 1) fun u hu => hin u (by simp [hu])
    simp only [runRateLimit, hcheck]
    rw [hrest]
    simp only [List.length_cons, List.range_succ_eq_map, List.map_cons, List.map_map]
    have e1 : decide (n + 1 ≤ RATE_LIMIT_MAX) = decide (n + 0 + 1 ≤ RATE_LIMIT_MAX) := by
      norm_num
    have e2 : (List.range ts.length).map (fun i => decide (n + 1 + i + 1 ≤ RATE_LIMIT_MAX)) =
        (List.range ts.length).map ((fun i => decide (n + i + 1 ≤ RATE_LIMIT_MAX)) ∘ Nat.succ) := by
      apply List.map_congr_left
      intro i _
      show decide (n + 1 + i + 1 ≤ RATE_LIMIT_MAX) = decide (n + (i + 1) + 1 ≤ RATE_LIMIT_MAX)
      exact congrArg (fun m => decide (m + 1 ≤ RATE_LIMIT_MAX)) (by omega)
    have e3 : n + 1 + ts.length = n + (ts.length + 1) := by omega
    rw [e1, e2, e3]

/-- Claim C2: starting from an unseen client, a first call at `t0` followed by any
calls all within the 60-second window admits exactly the first 15 calls (the i-th
call, 0-indexed, is admitted iff `i < 15`); the stored count still increments on
every rejected call (the final count equals the total number of calls and the
window start is unchanged, so the window cannot be reset early by continuing to
call); and the first call made strictly more than 60 seconds after `t0` is
admitted with a fresh count of 1. -/
theorem checkRateLimit_window (t0 : Nat) (ts : List Nat)
    (hin : ∀ t ∈ ts, t ≤ t0 + RATE_LIMIT_WINDOW) :
    (runRateLimit (t0 :: ts) none).1 =
      (List.range (ts.length + 1)).map (fun i => decide (i < RATE_LIMIT_MAX)) ∧
    (runRateLimit (t0 :: ts) none).2 = some (t0, ts.length + 1) ∧
    ∀ t', t0 + RATE_LIMIT_WINDOW < t' →
      checkRateLimit t' (runRateLimit (t0 :: ts) none).2 = (true, some (t', 1)) := by
  have hfirst : checkRateLimit t0 none = (true, some (t0, 1)) := rfl
  have hall : runRateLimit (t0 :: ts) none =
      (true :: ((List.range ts.length).map fun i => decide (1 + i + 1 ≤ RATE_LIMIT_MAX)),
        some (t0, 1 + ts.length)) := by
    simp only [runRateLimit, hfirst]
    rw [runRateLimit_within t0 ts 1 hin]
  refine ⟨?_, ?_, ?_⟩
  · rw [hall]
    simp only [List.range_succ_eq_map, List.map_cons, List.map_map]
    have e1 : (true : Bool) = decide (0 < RATE_LIMIT_MAX) := by decide
    have e2 : (List.range ts.length).map (fun i => decide (1 + i + 1 ≤ RATE_LIMIT_MAX)) =
        (List.range ts.length).map ((fun i => decide (i < RATE_LIMIT_MAX)) ∘ Nat.succ) := by
      apply List.map_congr_left
      intro i _
      show decide (1 + i + 1 ≤ RATE_LIMIT_MAX) = decide (i + 1 < RATE_LIMIT_MAX)
      unfold RATE_LIMIT_MAX
      exact decide_eq_decide.mpr (by omega)
    rw [e2]
    exact congrArg (fun b => b :: (List.range ts.length).map
      ((fun i => decide (i < RATE_LIMIT_MAX)) ∘ Nat.succ)) e1
  · rw [hall]
    exact congrArg (fun m => some (t0, m)) (by omega)
  · intro t' ht'
    rw [hall]
    have hc : RATE_LIMIT_WINDOW < t' - t0 := by
      unfold RATE_LIMIT_WINDOW at *
      omega
    simp only [checkRateLimit, if_pos hc]

/-- Witness for C2: twenty calls in one window (the 16th through 20th are
rejected while the count reaches 20), then an admitted call after the window. -/
theorem checkRateLimit_window_witness :
    (runRateLimit (0 :: List.replicate 19 30000) none).1 =
      (List.range 20).map (fun i => decide (i < RATE_LIMIT_MAX)) ∧
    (runRateLimit (0 :: List.replicate 19 30000) none).2 = some (0, 20) ∧
    checkRateLimit 70000 (runRateLimit (0 :: List.replicate 19 30000) none).2 =
      (true, some (70000, 1)) := by
  have h := checkRateLimit_window 0 (List.replicate 19 30000)
    (fun t ht => by
      have := List.eq_of_mem_replicate ht
      subst this
      unfold RATE_LIMIT_WINDOW
      omega)
  refine ⟨by simpa using h.1, by simpa using h.2.1, h.2.2 70000 (by unfold RATE_LIMIT_WINDOW; omega)⟩

theorem cacheGet_mem {α : Type} {m : List (String × CacheEntry α)} {k : String}
    {e : CacheEntry α} (h : cacheGet m k = some e) : (k, e) ∈ m := by
  induction m with
  | nil => simp [cacheGet] at h
  | cons p rest ih =>
    obtain ⟨k', e'⟩ := p
    unfold cacheGet at h
    split at h
    · rename_i hk
      cases h
      subst hk
      simp
    · exact List.mem_cons_of_mem _ (ih h)

theorem cacheGet_none_of_not_mem {α : Type} {m : List (String × CacheEntry α)} {k : String}
    (h : k ∉ m.map Prod.fst) : cacheGet m k = none := by
  induction m with
  | nil => rfl
  | cons p rest ih =>
    obtain ⟨k', e'⟩ := p
    unfold cacheGet
    rw [if_neg]
    · exact ih fun hm => h (by simp [hm])
    · intro hk
      exact h (by simp [hk])

theorem cacheGet_filter {α : Type} (q : String × CacheEntry α → Bool)
    (m : List (String × CacheEntry α)) (k : String) (hnd : (m.map Prod.fst).Nodup) :
    cacheGet (m.filter q) k =
      match cacheGet m k with
      | some e => if q (k, e) then some e else none
      | none => none := by
  induction m with
  | nil => rfl
  | cons p rest ih =>
    obtain ⟨k', e'⟩ := p
    rw [List.map_cons, List.nodup_cons] at hnd
    by_cases hk : k' = k
    · subst hk
      have hR : (match cacheGet ((k', e') :: rest) k' with
          | some e => if q (k', e) then some e else none
          | none => none) = if q (k', e') then some e' else none := by
        simp [cacheGet]
      rw [hR, List.filter_cons]
      by_cases hq : q (k', e') = true
      · rw [if_pos hq, if_pos hq]
        simp [cacheGet]
      · rw [if_neg hq, if_neg hq]
        apply cacheGet_none_of_not_mem
        intro hm
        apply hnd.1
        simp only [List.mem_map] at hm ⊢
        rcases hm with ⟨pp, hpp, hfst⟩
        exact ⟨pp, (List.filter_sublist (l := rest)).subset hpp, hfst⟩
    · have hR : (match cacheGet ((k', e') :: rest) k with
          | some e => if q (k, e) then some e else none
          | none => none) = (match cacheGet rest k with
          | some e => if q (k, e) then some e else none
          | none => none) := by
        simp [cacheGet, hk]
      rw [hR, List.filter_cons]
      by_cases hq : q (k', e') = true
      · rw [if_pos hq]
        have hL : cacheGet ((k', e') :: rest.filter q) k = cacheGet (rest.filter q) k := by
          simp [cacheGet, hk]
        rw [hL]
        exact ih hnd.2
      · rw [if_neg hq]
        exact ih hnd.2

theorem cacheSet_get_self {α : Type} (m : List (String × CacheEntry α)) (k : String)
    (e : CacheEntry α) : cacheGet (cacheSet m k e) k = some e := by
  induction m with
  | nil => simp [cacheSet, cacheGet]
  | cons p rest ih =>
    obtain ⟨k', e'⟩ := p
    by_cases hk : k' = k
    · simp [cacheSet, cacheGet, hk]
    · have h1 : cacheSet ((k', e') :: rest) k e = (k', e') :: cacheSet rest k e := by
        simp [cacheSet, hk]
      rw [h1]
      have h2 : cacheGet ((k', e') :: cacheSet rest k e) k = cacheGet (cacheSet rest k e) k := by
        simp [cacheGet, hk]
      rw [h2]
      exact ih

theorem cacheSet_keys_sub {α : Type} (m : List (String × CacheEntry α)) (k : String)
    (e : CacheEntry α) :
    ∀ x ∈ (cacheSet m k e).map Prod.fst, x ∈ m.map Prod.fst ∨ x = k := by
  induction m with
  | nil =>
    intro x hx
    simp [cacheSet] at hx
    simp [hx]
  | cons p rest ih =>
    obtain ⟨k', e'⟩ := p
    intro x hx
    by_cases hk : k' = k
    · rw [show cacheSet ((k', e') :: rest) k e = (k', e) :: rest from by simp [cacheSet, hk]] at hx
      simp only [List.map_cons, List.mem_cons] at hx
      rcases hx with hx | hx
      · left; simp only [List.map_cons, List.mem_cons]; left; exact hx
      · left; simp only [List.map_cons, List.mem_cons]; right; exact hx
    · rw [show cacheSet ((k', e') :: rest) k e = (k', e') :: cacheSet rest k e from by
        simp [cacheSet, hk]] at hx
      simp only [List.map_cons, List.mem_cons] at hx
      rcases hx with hx | hx
      · left; simp only [List.map_cons, List.mem_cons]; left; exact hx
      · rcases ih x hx with hin | hin
        · left; simp only [List.map_cons, List.mem_cons]; right; exact hin
        · right; exact hin

theorem cacheSet_keys_nodup {α : Type} {m : List (String × CacheEntry α)} (k : String)
    (e : CacheEntry α) (hnd : (m.map Prod.fst).Nodup) :
    ((cacheSet m k e).map Prod.fst).Nodup := by
  induction m with
  | nil => simp [cacheSet]
  | cons p rest ih =>
    obtain ⟨k', e'⟩ := p
    rw [List.map_cons, List.nodup_cons] at hnd
    by_cases hk : k' = k
    · rw [show cacheSet ((k', e') :: rest) k e = (k', e) :: rest from by simp [cacheSet, hk]]
      rw [List.map_cons, List.nodup_cons]
      exact ⟨hnd.1, hnd.2⟩
    · rw [show cacheSet ((k', e') :: rest) k e = (k', e') :: cacheSet rest k e from by
        simp [cacheSet, hk]]
      rw [List.map_cons, List.nodup_cons]
      refine ⟨?_, ih hnd.2⟩
      intro hmem
      rcases cacheSet_keys_sub rest k e k' hmem with hin | hin
      · exact hnd.1 hin
      · exact hk hin

theorem cacheDelete_get_none {α : Type} (m : List (String × CacheEntry α)) (k : String) :
    cacheGet (cacheDelete m k) k = none := by
  apply cacheGet_none_of_not_mem
  intro hmem
  rcases List.mem_map.mp hmem with ⟨pp, hpp, hfst⟩
  have := List.of_mem_filter hpp
  rw [hfst] at this
  simp at this

/-- Claim C4: the response cache contract. `getCached` returns the stored value
iff the entry is younger than the 5-minute TTL; observing a stale entry deletes
it and returns absent; `setCache` stores the new entry under the current time,
and whenever the map's size after insertion exceeds 200 it deletes every entry
older than the TTL (every surviving retrievable entry is fresh) while retaining
every fresh entry. -/
theorem cache_contract {α : Type} (now : Nat) (m : List (String × CacheEntry α))
    (url : String) (d : α) (hnd : (m.map Prod.fst).Nodup) :
    ((getCached now m url).1 = some d ↔
      ∃ e, cacheGet m url = some e ∧ e.data = d ∧ now - e.time < CACHE_TTL) ∧
    (∀ e, cacheGet m url = some e → CACHE_TTL ≤ now - e.time →
      getCached now m url = (none, cacheDelete m url) ∧
      cacheGet (cacheDelete m url) url = none) ∧
    cacheGet (setCache now m url d) url = some ⟨d, now⟩ ∧
    (200 < (cacheSet m url ⟨d, now⟩).length →
      ∀ k e, cacheGet (setCache now m url d) k = some e → now - e.time ≤ CACHE_TTL) ∧
    (200 < (cacheSet m url ⟨d, now⟩).length →
      ∀ k e, cacheGet (cacheSet m url ⟨d, now⟩) k = some e → now - e.time ≤ CACHE_TTL →
        cacheGet (setCache now m url d) k = some e) := by
  have hnd1 : ((cacheSet m url ⟨d, now⟩).map Prod.fst).Nodup :=
    cacheSet_keys_nodup url ⟨d, now⟩ hnd
  refine ⟨?_, ?_, ?_, ?_, ?_⟩
  · rcases hg : cacheGet m url with _ | e
    · rw [show getCached now m url = (none, m) from by simp [getCached, hg]]
      constructor
      · intro h; simp at h
      · rintro ⟨e', he', _, _⟩
        cases he'
    · by_cases hf : now - e.time < CACHE_TTL
      · rw [show getCached now m url = (some e.data, m) from by simp [getCached, hg, hf]]
        constructor
        · intro h
          simp only [Option.some.injEq] at h
          exact ⟨e, rfl, h, hf⟩
        · rintro ⟨e', he', hd, _⟩
          cases he'
          simp [hd]
      · rw [show getCached now m url = (none, cacheDelete m url) from by
          simp [getCached, hg, hf]]
        constructor
        · intro h; simp at h
        · rintro ⟨e', he', _, hfresh⟩
          cases he'
          exact absurd hfresh hf
  · intro e hg hstale
    refine ⟨?_, cacheDelete_get_none m url⟩
    have hf : ¬ (now - e.time < CACHE_TTL) := by omega
    simp [getCached, hg, hf]
  · rw [show setCache now m url d = (if 200 < (cacheSet m url ⟨d, now⟩).length then
        (cacheSet m url ⟨d, now⟩).filter (fun p => !(CACHE_TTL < now - p.2.time))
      else cacheSet m url ⟨d, now⟩) from rfl]
    by_cases hlen : 200 < (cacheSet m url ⟨d, now⟩).length
    · rw [if_pos hlen, cacheGet_filter _ _ _ hnd1, cacheSet_get_self]
      simp
    · rw [if_neg hlen]
      exact cacheSet_get_self m url ⟨d, now⟩
  · intro hlen k e hget
    rw [show setCache now m url d = (cacheSet m url ⟨d, now⟩).filter
        (fun p => !(CACHE_TTL < now - p.2.time)) from by simp [setCache, hlen]] at hget
    have hmem := cacheGet_mem hget
    have hq := List.of_mem_filter hmem
    simp only [Bool.not_eq_true', decide_eq_false_iff_not] at hq
    omega
  · intro hlen k e hget hfresh
    rw [show setCache now m url d = (cacheSet m url ⟨d, now⟩).filter
        (fun p => !(CACHE_TTL < now - p.2.time)) from by simp [setCache, hlen]]
    rw [cacheGet_filter _ _ _ hnd1, hget]
    have hb : ¬ (CACHE_TTL < now - e.time) := by omega
    simp [hb]

set_option maxRecDepth 1000000 in
/-- Witness for C4 at time 400000 (all 201 entries stale) and the key `"!"`. -/
theorem cache_contract_witness :
    getCached 400000 cacheWitnessMap "!" = (none, cacheDelete cacheWitnessMap "!") ∧
    cacheGet (setCache 400000 cacheWitnessMap "!" 7) "!" = some ⟨7, 400000⟩ ∧
    (400000 : Nat) - (400000 : Nat) ≤ CACHE_TTL := by
  have h := cache_contract 400000 cacheWitnessMap "!" 7 (by decide)
  refine ⟨(h.2.1 ⟨0, 0⟩ (by decide) (by decide)).1, h.2.2.1, ?_⟩
  exact h.2.2.2.1 (by decide) "!" ⟨7, 400000⟩ h.2.2.1

/-- Claim C6 (code bug): the hostname of an IPv6 URL carries surrounding brackets
(`[fd00::1]`), so the prefix alternatives `::1|fc|fd|fe80` of line 262 never
match a real IPv6 hostname and unique-local and link-local IPv6 URLs are
*accepted*; only the literal loopback `[::1]` is caught, by the equality check of
line 265. The evaluations below exhibit the divergence. -/
theorem validateUrl_ipv6_eval :
    validateUrl "https://[fd00::1]/" = none ∧
    validateUrl "https://[fe80::1]/" = none ∧
    validateUrl "https://[::1]/" = some "Private or reserved addresses are not allowed" ∧
    (parseURL "https://[fd00::1]/").map URLParts.hostname = some "[fd00::1]" := by
  refine ⟨by decide, by decide, by decide, by decide⟩

/-- Claim C7: the validator's verdicts on the spec's example URLs, plus: every
string the URL parser rejects is reported as `Invalid URL`. (`validateUrl` is a
pure function — it takes no fetch oracle — so it performs no network I/O.) -/
theorem validateUrl_examples :
    validateUrl "http://127.0.0.1/x" = some "Private or reserved addresses are not allowed" ∧
    validateUrl "http://10.0.0.5/" = some "Private or reserved addresses are not allowed" ∧
    validateUrl "http://localhost/" = some "Private or reserved addresses are not allowed" ∧
    validateUrl "ftp://example.com/" = some "Only HTTP/HTTPS URLs are supported" ∧
    validateUrl "https://example.com/page" = none ∧
    (∀ s, parseURL s = none → validateUrl s = some "Invalid URL") := by
  refine ⟨by decide, by decide, by decide, by decide, by decide, ?_⟩
  intro s hs
  unfold validateUrl
  rw [hs]

/-- Witness for C7's universally quantified conjunct at the non-URL `"::"`. -/
theorem validateUrl_examples_witness :
    validateUrl "::" = some "Invalid URL" :=
  validateUrl_examples.2.2.2.2.2 "::" rfl

/-- Counterexample to C10 as stated: `ftp://fcbarcelona.com/` is a URL whose
lowercased hostname begins with `fc`, yet it is rejected with the scheme reason,
not the private-or-reserved-address reason, because the scheme check runs first. -/
theorem validateUrl_prefix_counterexample :
    (parseURL "ftp://fcbarcelona.com/").map URLParts.hostname = some "fcbarcelona.com" ∧
    validateUrl "ftp://fcbarcelona.com/" = some "Only HTTP/HTTPS URLs are supported" ∧
    validateUrl "ftp://fcbarcelona.com/" ≠ some "Private or reserved addresses are not allowed" := by
  refine ⟨by decide, by decide, by decide⟩

/-- Claim C10 (amended): every *http or https* URL whose lowercased hostname
begins with `fc`, `fd`, `fe80` or `0.` is rejected by `validateUrl` with the
private-or-reserved-address reason, even when the host is a legitimate public
name such as `fcbarcelona.com` — the private-address check is a string-prefix
test. (Any other scheme is rejected earlier with the scheme reason, so such
hosts can never be fetched in any case.) -/
theorem validateUrl_prefix_false_positive (s : String) (u : URLParts)
    (hp : parseURL s = some u)
    (hs : u.protocol = "https:" ∨ u.protocol = "http:")
    (hh : ("fc".data.isPrefixOf (lowerStr u.hostname).data ∨
      "fd".data.isPrefixOf (lowerStr u.hostname).data ∨
      "fe80".data.isPrefixOf (lowerStr u.hostname).data ∨
      "0.".data.isPrefixOf (lowerStr u.hostname).data)) :
    validateUrl s = some "Private or reserved addresses are not allowed" := by
  have hsch : ¬ (u.protocol ≠ "https:" ∧ u.protocol ≠ "http:") := by
    rcases hs with hs | hs <;> simp [hs]
  have hany : privateHostPatterns.any
      (fun pre => pre.data.isPrefixOf (lowerStr u.hostname).data) = true := by
    apply List.any_eq_true.mpr
    rcases hh with hh | hh | hh | hh
    · exact ⟨"fc", by decide, hh⟩
    · exact ⟨"fd", by decide, hh⟩
    · exact ⟨"fe80", by decide, hh⟩
    · exact ⟨"0.", by decide, hh⟩
  have hv : validateUrl s =
      (if u.protocol ≠ "https:" ∧ u.protocol ≠ "http:" then
        some "Only HTTP/HTTPS URLs are supported"
      else if privateHostPatterns.any
          (fun pre => pre.data.isPrefixOf (lowerStr u.hostname).data) then
        some "Private or reserved addresses are not allowed"
      else if lowerStr u.hostname = "localhost" ∨ lowerStr u.hostname = "[::1]" then
        some "Private or reserved addresses are not allowed"
      else none) := by
    unfold validateUrl
    rw [hp]
  rw [hv, if_neg hsch, if_pos hany]

/-- Witness for C10 (amended) at `https://fcbarcelona.com/`. -/
theorem validateUrl_prefix_false_positive_witness :
    validateUrl "https://fcbarcelona.com/" = some "Private or reserved addresses are not allowed" :=
  validateUrl_prefix_false_positive "https://fcbarcelona.com/"
    ⟨"https:", "fcbarcelona.com", "/"⟩ (by decide) (Or.inl rfl) (Or.inl (by decide))

theorem extractSunoLyrics_none_of_no_marker (j : List Char → Option SunoClip)
    (html : List Char) (h : findSubIdx clipMarker (normaliseSunoEscapes html) = none) :
    extractSunoLyrics j html = none := by
  simp only [extractSunoLyrics]
  rw [h]

theorem extractSunoLyrics_none_of_json_none (j : List Char → Option SunoClip)
    (hj : ∀ c, j c = none) (html : List Char) : extractSunoLyrics j html = none := by
  simp only [extractSunoLyrics]
  split
  · rfl
  · split
    · rfl
    · split
      · rfl
      · rw [hj]

/-- Claim C5: lyrics resolution never surfaces an error. The `try/catch` wrapper
turns every thrown exception into `null`; and each enumerated internal failure —
unparseable page URL, non-Suno host, bad path or song id, network error on the
embed fetch, non-2xx embed response, missing `"clip":{` marker, and malformed
JSON — collapses to `none` (lyrics absent). -/
theorem fetchSunoLyrics_never_throws (f : String → Option FetchResponse)
    (j : List Char → Option SunoClip) (url : String) :
    (∀ e, fetchSunoLyricsE f j url = Except.error e → fetchSunoLyrics f j url = none) ∧
    (parseURL url = none → fetchSunoLyrics f j url = none) ∧
    (∀ u, parseURL url = some u → u.hostname ≠ "suno.com" → u.hostname ≠ "www.suno.com" →
      fetchSunoLyricsE f j url = Except.ok none ∧ fetchSunoLyrics f j url = none) ∧
    (∀ u, parseURL url = some u → sunoSongId u = none → fetchSunoLyrics f j url = none) ∧
    ((∀ s, f s = none) → fetchSunoLyrics f j url = none) ∧
    ((∀ s r, f s = some r → r.ok = false) → fetchSunoLyrics f j url = none) ∧
    ((∀ c, j c = none) → fetchSunoLyrics f j url = none) := by
  have hcatch : ∀ e, fetchSunoLyricsE f j url = Except.error e →
      fetchSunoLyrics f j url = none := by
    intro e he
    unfold fetchSunoLyrics
    rw [he]
  have hok : ∀ r, fetchSunoLyricsE f j url = Except.ok r → fetchSunoLyrics f j url = r := by
    intro r hr
    unfold fetchSunoLyrics
    rw [hr]
  refine ⟨hcatch, ?_, ?_, ?_, ?_, ?_, ?_⟩
  · intro hp
    apply hcatch "Invalid URL"
    unfold fetchSunoLyricsE
    rw [hp]
  · intro u hp h1 h2
    have hE : fetchSunoLyricsE f j url = Except.ok none := by
      unfold fetchSunoLyricsE
      rw [hp]
      simp only [if_pos (And.intro h1 h2)]
    exact ⟨hE, hok none hE⟩
  · intro u hp hsid
    apply hok none
    unfold fetchSunoLyricsE
    rw [hp]
    by_cases hhost : u.hostname ≠ "suno.com" ∧ u.hostname ≠ "www.suno.com"
    · simp only [if_pos hhost]
    · simp only [if_neg hhost, hsid]
  · intro hf
    rcases hp : parseURL url with _ | u
    · apply hcatch "Invalid URL"
      unfold fetchSunoLyricsE
      rw [hp]
    · by_cases hhost : u.hostname ≠ "suno.com" ∧ u.hostname ≠ "www.suno.com"
      · apply hok none
        unfold fetchSunoLyricsE
        rw [hp]
        simp only [if_pos hhost]
      · rcases hsid : sunoSongId u with _ | id
        · apply hok none
          unfold fetchSunoLyricsE
          rw [hp]
          simp only [if_neg hhost, hsid]
        · apply hcatch "TypeError: fetch failed"
          unfold fetchSunoLyricsE
          rw [hp]
          simp only [if_neg hhost, hsid, hf]
  · intro hf
    rcases hp : parseURL url with _ | u
    · apply hcatch "Invalid URL"
      unfold fetchSunoLyricsE
      rw [hp]
    · by_cases hhost : u.hostname ≠ "suno.com" ∧ u.hostname ≠ "www.suno.com"
      · apply hok none
        unfold fetchSunoLyricsE
        rw [hp]
        simp only [if_pos hhost]
      · rcases hsid : sunoSongId u with _ | id
        · apply hok none
          unfold fetchSunoLyricsE
          rw [hp]
          simp only [if_neg hhost, hsid]
        · rcases hfe : f ("https://suno.com/embed/" ++ String.mk id) with _ | res
          · apply hcatch "TypeError: fetch failed"
            unfold fetchSunoLyricsE
            rw [hp]
            simp only [if_neg hhost, hsid, hfe]
          · apply hok none
            unfold fetchSunoLyricsE
            rw [hp]
            have hres := hf _ res hfe
            simp only [if_neg hhost, hsid, hfe, hres]
            simp
  · intro hj
    rcases hp : parseURL url with _ | u
    · apply hcatch "Invalid URL"
      unfold fetchSunoLyricsE
      rw [hp]
    · by_cases hhost : u.hostname ≠ "suno.com" ∧ u.hostname ≠ "www.suno.com"
      · apply hok none
        unfold fetchSunoLyricsE
        rw [hp]
        simp only [if_pos hhost]
      · rcases hsid : sunoSongId u with _ | id
        · apply hok none
          unfold fetchSunoLyricsE
          rw [hp]
          simp only [if_neg hhost, hsid]
        · rcases hfe : f ("https://suno.com/embed/" ++ String.mk id) with _ | res
          · apply hcatch "TypeError: fetch failed"
            unfold fetchSunoLyricsE
            rw [hp]
            simp only [if_neg hhost, hsid, hfe]
          · have hnone := extractSunoLyrics_none_of_json_none j hj res.body
            apply hok none
            unfold fetchSunoLyricsE
            rw [hp]
            simp only [if_neg hhost, hsid, hfe, hnone]
            by_cases hres : res.ok = true
            · simp [hres]
            · simp [hres]

/-- Witness for C5 at three concrete inputs: an unparseable URL, a non-Suno
host, and a Suno song URL whose embed fetch suffers a network error. -/
theorem fetchSunoLyrics_never_throws_witness :
    fetchSunoLyrics alwaysFailFetch alwaysFailJson ":" = none ∧
    fetchSunoLyrics alwaysFailFetch alwaysFailJson "https://example.com/" = none ∧
    fetchSunoLyrics alwaysFailFetch alwaysFailJson
      "https://suno.com/song/aaaaaaaa-aaaa-aaaa-aaaa-aaaaaaaaaaaa" = none := by
  refine ⟨?_, ?_, ?_⟩
  · exact (fetchSunoLyrics_never_throws alwaysFailFetch alwaysFailJson ":").2.1 (by decide)
  · exact ((fetchSunoLyrics_never_throws alwaysFailFetch alwaysFailJson
      "https://example.com/").2.2.1 ⟨"https:", "example.com", "/"⟩ (by decide)
      (by decide) (by decide)).2
  · exact (fetchSunoLyrics_never_throws alwaysFailFetch alwaysFailJson
      "https://suno.com/song/aaaaaaaa-aaaa-aaaa-aaaa-aaaaaaaaaaaa").2.2.2.2.1
      (fun s => rfl)


theorem char_toNat_bounds {c : Char} (h : 'A' ≤ c ∧ c ≤ 'Z') :
    65 ≤ c.toNat ∧ c.toNat ≤ 90 := by
  obtain ⟨h1, h2⟩ := h
  rw [Char.le_def] at h1 h2
  exact ⟨h1, h2⟩

theorem toLower_upper_range {c : Char} (h : 'A' ≤ c ∧ c ≤ 'Z') :
    'a' ≤ toLowerChar c ∧ toLowerChar c ≤ 'z' := by
  obtain ⟨h1, h2⟩ := char_toNat_bounds h
  unfold toLowerChar
  rw [if_pos h]
  interval_cases hn : c.toNat <;> decide

theorem toLowerChar_eq_iff {c x : Char} (hx1 : ¬('A' ≤ x ∧ x ≤ 'Z'))
    (hx2 : ¬('a' ≤ x ∧ x ≤ 'z')) : toLowerChar c = x ↔ c = x := by
  by_cases h : 'A' ≤ c ∧ c ≤ 'Z'
  · constructor
    · intro he
      exact absurd (he ▸ toLower_upper_range h) hx2
    · intro he
      subst he
      exact absurd h hx1
  · rw [show toLowerChar c = c from by unfold toLowerChar; rw [if_neg h]]

theorem quoteChar_cases {q : Char} (hq : quoteChar q = true) : q = '"' ∨ q = squoteChar := by
  simpa [quoteChar] using hq

theorem fold_quote_fixed {q : Char} (hq : quoteChar q = true) : toLowerChar q = q := by
  rcases quoteChar_cases hq with h | h <;> subst h <;> decide

theorem fold_eq_quote {c q : Char} (hq : quoteChar q = true) : toLowerChar c = q ↔ c = q := by
  rcases quoteChar_cases hq with h | h <;> subst h
  · exact toLowerChar_eq_iff (by decide) (by decide)
  · exact toLowerChar_eq_iff (by decide) (by decide)

theorem fold_ne_lt {c : Char} (h : c ≠ '<') : toLowerChar '<' ≠ toLowerChar c := by
  intro hcontra
  apply h
  have hc : toLowerChar c = '<' := by rw [← hcontra]; decide
  exact (toLowerChar_eq_iff (by decide) (by decide)).mp hc

theorem lowerL_append (a b : List Char) : lowerL (a ++ b) = lowerL a ++ lowerL b :=
  List.map_append toLowerChar a b

theorem lowerL_cons (c : Char) (l : List Char) :
    lowerL (c :: l) = toLowerChar c :: lowerL l := rfl

theorem dropLit_cons {p c : Char} {ps cs : List Char} :
    dropLit (p :: ps) (c :: cs) =
      if toLowerChar p = toLowerChar c then dropLit ps cs else none := rfl

theorem dropLit_of_lower {t u : List Char} (h : lowerL u = lowerL t) (r : List Char) :
    dropLit t (u ++ r) = some r := by
  induction t generalizing u with
  | nil =>
    have hu : u = [] := by simpa [lowerL] using h
    subst hu
    rfl
  | cons p ps ih =>
    cases u with
    | nil => simp [lowerL] at h
    | cons c cs =>
      simp only [lowerL, List.map_cons, List.cons.injEq] at h
      rw [List.cons_append, dropLit_cons, if_pos h.1.symm]
      exact ih (by simp [lowerL, h.2]) 

theorem dropLit_self (t r : List Char) : dropLit t (t ++ r) = some r :=
  dropLit_of_lower rfl r

theorem dropLit_append (A B s : List Char) :
    dropLit (A ++ B) s = (dropLit A s).bind (dropLit B) := by
  induction A generalizing s with
  | nil => rfl
  | cons p ps ih =>
    cases s with
    | nil => rfl
    | cons c cs =>
      rw [List.cons_append, dropLit_cons, dropLit_cons]
      by_cases h : toLowerChar p = toLowerChar c
      · rw [if_pos h, if_pos h, ih]
      · rw [if_neg h, if_neg h]
        rfl

theorem dropLit_tag_quote_hit {n N : List Char} (hlow : lowerL N = lowerL n) (w : List Char) :
    dropLit (n ++ ['"']) (N ++ '"' :: w) = some w := by
  have hpage : N ++ '"' :: w = (N ++ ['"']) ++ w := by simp
  rw [hpage]
  apply dropLit_of_lower
  rw [lowerL_append, lowerL_append, hlow]

theorem token_prefix_split :
    ∀ (L : List Char), (∀ c ∈ L, quoteChar c = false) →
      ∀ (y : List Char), (∀ c ∈ y, quoteChar c = false) →
        ∀ (q : Char), quoteChar q = true →
          ∀ (M z r : List Char),
            dropLit (L ++ '=' :: q :: M) (y ++ '"' :: z) = some r →
            lowerL y = lowerL L ++ ['='] ∧ q = '"' ∧ dropLit M z = some r := by
  intro L
  induction L with
  | nil =>
    intro _ y hy q hq M z r h
    rw [List.nil_append] at h
    cases y with
    | nil =>
      rw [List.nil_append, dropLit_cons, if_neg (by decide)] at h
      cases h
    | cons a y' =>
      rw [List.cons_append, dropLit_cons] at h
      by_cases hc : toLowerChar '=' = toLowerChar a
      case neg => rw [if_neg hc] at h; cases h
      rw [if_pos hc] at h
      have ha : a = '=' := by
        have hc2 : toLowerChar a = '=' := by rw [← hc]; decide
        exact (toLowerChar_eq_iff (by decide) (by decide)).mp hc2
      cases y' with
      | nil =>
        rw [List.nil_append, dropLit_cons] at h
        by_cases hq2 : toLowerChar q = toLowerChar '"'
        case neg => rw [if_neg hq2] at h; cases h
        rw [if_pos hq2] at h
        have hq3 : q = '"' := (toLowerChar_eq_iff (by decide) (by decide)).mp
          (by rw [hq2]; decide)
        refine ⟨?_, hq3, h⟩
        subst ha
        decide
      | cons b y'' =>
        rw [List.cons_append, dropLit_cons] at h
        by_cases hqb : toLowerChar q = toLowerChar b
        case neg => rw [if_neg hqb] at h; cases h
        have hb : b = q := (fold_eq_quote hq).mp (hqb.symm.trans (fold_quote_fixed hq))
        have hbf : quoteChar b = false := hy b (by simp)
        rw [hb] at hbf
        rw [hbf] at hq
        cases hq
  | cons l L' ih =>
    intro hL y hy q hq M z r h
    rw [List.cons_append] at h
    cases y with
    | nil =>
      rw [List.nil_append, dropLit_cons] at h
      by_cases hc : toLowerChar l = toLowerChar '"'
      case neg => rw [if_neg hc] at h; cases h
      have hl : l = '"' := (toLowerChar_eq_iff (by decide) (by decide)).mp
        (by rw [hc]; decide)
      have hlf := hL l (by simp)
      rw [hl] at hlf
      exact absurd hlf (by decide)
    | cons a y' =>
      rw [List.cons_append, dropLit_cons] at h
      by_cases hc : toLowerChar l = toLowerChar a
      case neg => rw [if_neg hc] at h; cases h
      rw [if_pos hc] at h
      obtain ⟨e1, e2, e3⟩ := ih (fun c hc2 => hL c (by simp [hc2])) y'
        (fun c hc2 => hy c (by simp [hc2])) q hq M z r h
      refine ⟨?_, e2, e3⟩
      simp only [lowerL, List.map_cons] at e1 ⊢
      rw [List.cons_append, ← hc, e1]

theorem tag_quote_prefix_eq :
    ∀ (n : List Char), (∀ c ∈ n, quoteChar c = false) →
      ∀ (N : List Char), (∀ c ∈ N, quoteChar c = false) →
        ∀ (q : Char), quoteChar q = true →
          ∀ (z r : List Char), dropLit (n ++ [q]) (N ++ '"' :: z) = some r →
            lowerL N = lowerL n ∧ q = '"' ∧ r = z := by
  intro n
  induction n with
  | nil =>
    intro _ N hN q hq z r h
    rw [List.nil_append] at h
    cases N with
    | nil =>
      rw [List.nil_append, dropLit_cons] at h
      by_cases hc : toLowerChar q = toLowerChar '"'
      case neg => rw [if_neg hc] at h; cases h
      rw [if_pos hc] at h
      have hq3 : q = '"' := (toLowerChar_eq_iff (by decide) (by decide)).mp
        (by rw [hc]; decide)
      cases h
      exact ⟨rfl, hq3, rfl⟩
    | cons b N' =>
      rw [List.cons_append, dropLit_cons] at h
      by_cases hc : toLowerChar q = toLowerChar b
      case neg => rw [if_neg hc] at h; cases h
      have hb : b = q := (fold_eq_quote hq).mp (hc.symm.trans (fold_quote_fixed hq))
      have hbf : quoteChar b = false := hN b (by simp)
      rw [hb] at hbf
      rw [hbf] at hq
      cases hq
  | cons a n' ih =>
    intro hn N hN q hq z r h
    rw [List.cons_append] at h
    cases N with
    | nil =>
      rw [List.nil_append, dropLit_cons] at h
      by_cases hc : toLowerChar a = toLowerChar '"'
      case neg => rw [if_neg hc] at h; cases h
      have ha : a = '"' := (toLowerChar_eq_iff (by decide) (by decide)).mp
        (by rw [hc]; decide)
      have haf := hn a (by simp)
      rw [ha] at haf
      exact absurd haf (by decide)
    | cons b N' =>
      rw [List.cons_append, dropLit_cons] at h
      by_cases hc : toLowerChar a = toLowerChar b
      case neg => rw [if_neg hc] at h; cases h
      rw [if_pos hc] at h
      obtain ⟨e1, e2, e3⟩ := ih (fun c hc2 => hn c (by simp [hc2])) N'
        (fun c hc2 => hN c (by simp [hc2])) q hq z r h
      refine ⟨?_, e2, e3⟩
      simp only [lowerL, List.map_cons] at e1 ⊢
      rw [← hc, e1]

theorem attrTokens_shape {tag τ : List Char} (h : τ ∈ attrTokens tag) :
    ∃ kw q1 q2, τ = kw ++ '=' :: q1 :: (tag ++ [q2]) ∧
      (kw = "property".data ∨ kw = "name".data) ∧
      quoteChar q1 = true ∧ quoteChar q2 = true := by
  simp only [attrTokens, List.mem_flatMap, List.mem_map] at h
  obtain ⟨kw, hkw, q1, hq1, q2, hq2, rfl⟩ := h
  refine ⟨kw, q1, q2, rfl, ?_, ?_, ?_⟩
  · simpa using hkw
  · rcases (by simpa using hq1 : q1 = '"' ∨ q1 = squoteChar) with h | h <;> subst h <;> decide
  · rcases (by simpa using hq2 : q2 = '"' ∨ q2 = squoteChar) with h | h <;> subst h <;> decide

theorem contentTokens_shape {τ : List Char} (h : τ ∈ contentTokens) :
    ∃ q, τ = "content".data ++ '=' :: q :: [] ∧ quoteChar q = true := by
  simp only [contentTokens, List.mem_map] at h
  obtain ⟨q, hq, rfl⟩ := h
  refine ⟨q, rfl, ?_⟩
  rcases (by simpa using hq : q = '"' ∨ q = squoteChar) with h | h <;> subst h <;> decide

theorem dropLit_attr_none {tag y z : List Char}
    (hy : ∀ c ∈ y, quoteChar c = false)
    (hy1 : lowerL y ≠ "property=".data) (hy2 : lowerL y ≠ "name=".data) :
    ∀ τ ∈ attrTokens tag, dropLit τ (y ++ '"' :: z) = none := by
  intro τ hτ
  obtain ⟨kw, q1, q2, rfl, hkw, hq1, hq2⟩ := attrTokens_shape hτ
  cases hcase : dropLit (kw ++ '=' :: q1 :: (tag ++ [q2])) (y ++ '"' :: z) with
  | none => rfl
  | some r =>
    have hkwq : ∀ c ∈ kw, quoteChar c = false := by
      rcases hkw with h | h <;> subst h <;> decide
    obtain ⟨e1, _, _⟩ := token_prefix_split kw hkwq y hy q1 hq1 (tag ++ [q2]) z r hcase
    rcases hkw with h | h <;> subst h
    · exact absurd (by rw [e1]; decide) hy1
    · exact absurd (by rw [e1]; decide) hy2

theorem dropLit_content_none {y z : List Char}
    (hy : ∀ c ∈ y, quoteChar c = false) (hy1 : lowerL y ≠ "content=".data) :
    ∀ τ ∈ contentTokens, dropLit τ (y ++ '"' :: z) = none := by
  intro τ hτ
  obtain ⟨q, rfl, hq⟩ := contentTokens_shape hτ
  cases hcase : dropLit ("content".data ++ '=' :: q :: []) (y ++ '"' :: z) with
  | none => rfl
  | some r =>
    obtain ⟨e1, _, _⟩ := token_prefix_split "content".data (by decide) y hy q hq [] z r hcase
    exact absurd (by rw [e1]; decide) hy1

theorem tryTokens_none {toks : List (List Char)} {s : List Char}
    (h : ∀ τ ∈ toks, dropLit τ s = none) : tryTokens toks s = none := by
  induction toks with
  | nil => rfl
  | cons t ts ih =>
    show List.findSome? (fun t => dropLit t s) (t :: ts) = none
    rw [List.findSome?_cons]
    rw [h t (by simp)]
    exact ih fun τ hτ => h τ (by simp [hτ])

theorem tryTokens_head_hit {t : List Char} {toks : List (List Char)} {s r : List Char}
    (h : dropLit t s = some r) : tryTokens (t :: toks) s = some r := by
  show List.findSome? (fun t => dropLit t s) (t :: toks) = some r
  rw [List.findSome?_cons, h]

theorem tryTokens_attr_none {tag y z : List Char}
    (hy : ∀ c ∈ y, quoteChar c = false)
    (hy1 : lowerL y ≠ "property=".data) (hy2 : lowerL y ≠ "name=".data) :
    tryTokens (attrTokens tag) (y ++ '"' :: z) = none :=
  tryTokens_none (dropLit_attr_none hy hy1 hy2)

theorem tryTokens_content_none {y z : List Char}
    (hy : ∀ c ∈ y, quoteChar c = false) (hy1 : lowerL y ≠ "content=".data) :
    tryTokens contentTokens (y ++ '"' :: z) = none :=
  tryTokens_none (dropLit_content_none hy hy1)

theorem dropLit_none_of_head_ne {τ s : List Char} {b a : Char}
    (hhead : τ.head? = some a) (hne : toLowerChar a ≠ toLowerChar b) :
    dropLit τ (b :: s) = none := by
  cases τ with
  | nil => simp at hhead
  | cons x t =>
    simp only [List.head?_cons, Option.some.injEq] at hhead
    subst hhead
    rw [dropLit_cons, if_neg hne]

theorem tryTokens_attr_gt {tag : List Char} (rest : List Char) :
    tryTokens (attrTokens tag) ('>' :: rest) = none := by
  apply tryTokens_none
  intro τ hτ
  obtain ⟨kw, q1, q2, rfl, hkw, _, _⟩ := attrTokens_shape hτ
  rcases hkw with h | h <;> subst h
  · exact dropLit_none_of_head_ne (a := 'p') rfl (by decide)
  · exact dropLit_none_of_head_ne (a := 'n') rfl (by decide)

theorem tryTokens_content_gt (rest : List Char) :
    tryTokens contentTokens ('>' :: rest) = none := by
  apply tryTokens_none
  intro τ hτ
  obtain ⟨q, rfl, _⟩ := contentTokens_shape hτ
  exact dropLit_none_of_head_ne (a := 'c') rfl (by decide)

theorem scanWindow_gt (toks : List (List Char)) (rest : List Char) :
    scanWindow toks ('>' :: rest) = none := by
  simp [scanWindow]

theorem scanWindow_cons_hit {toks : List (List Char)} {s r : List Char} (c : Char)
    (hc : c ≠ '>') (h : tryTokens toks s = some r) : scanWindow toks (c :: s) = some r := by
  simp [scanWindow, hc, h]

theorem scanWindow_cons_step {toks : List (List Char)} {s : List Char} (c : Char)
    (hc : c ≠ '>') (h : tryTokens toks s = none) :
    scanWindow toks (c :: s) = scanWindow toks s := by
  simp [scanWindow, hc, h]

theorem scanWindow_skip_seg {toks : List (List Char)} :
    ∀ (y z : List Char), (∀ c ∈ y, quoteChar c = false ∧ c ≠ '>') →
      (∀ y', y' <:+ y → y' ≠ y → tryTokens toks (y' ++ '"' :: z) = none) →
      scanWindow toks (y ++ '"' :: z) = scanWindow toks ('"' :: z) := by
  intro y
  induction y with
  | nil => intro z _ _; rfl
  | cons c y' ih =>
    intro z hy htry
    rw [List.cons_append]
    rw [scanWindow_cons_step c (hy c (by simp)).2
      (htry y' (List.suffix_cons c y') (by
        intro hcontra
        have := congrArg List.length hcontra
        simp at this))]
    exact ih z (fun a ha => hy a (by simp [ha])) fun y'' hsuf hne =>
      htry y'' (hsuf.trans (List.suffix_cons c y')) (by
        intro hcontra
        have hlen := hsuf.length_le
        rw [hcontra] at hlen
        simp at hlen)

theorem goodChar_spec {c : Char} (h : goodChar c = true) :
    quoteChar c = false ∧ c ≠ '>' ∧ c ≠ '=' ∧ c ≠ '<' := by
  unfold goodChar at h
  simp only [Bool.not_eq_true', Bool.or_eq_false_iff, decide_eq_false_iff_not] at h
  obtain ⟨⟨⟨⟨h1, h2⟩, h3⟩, h4⟩, h5⟩ := h
  refine ⟨?_, h4, h5, h3⟩
  simp [quoteChar, h1, h2]

theorem good_quote_free {y : List Char} (hy : ∀ c ∈ y, goodChar c = true) :
    ∀ c ∈ y, quoteChar c = false :=
  fun c hc => (goodChar_spec (hy c hc)).1

theorem good_ne_lits {y : List Char} (hy : ∀ c ∈ y, goodChar c = true) :
    lowerL y ≠ "property=".data ∧ lowerL y ≠ "name=".data ∧ lowerL y ≠ "content=".data := by
  have hnoeq : '=' ∉ lowerL y := by
    intro hmem
    obtain ⟨c, hc, hfold⟩ := List.mem_map.mp hmem
    have hceq : c = '=' := (toLowerChar_eq_iff (by decide) (by decide)).mp hfold
    subst hceq
    exact absurd (hy '=' hc) (by decide)
  refine ⟨?_, ?_, ?_⟩ <;> intro h <;> rw [h] at hnoeq <;> exact hnoeq (by decide)

theorem tryTokens_hit_unique {toks : List (List Char)} {s r : List Char}
    (h : ∃ t ∈ toks, dropLit t s = some r)
    (huniq : ∀ t' ∈ toks, ∀ r', dropLit t' s = some r' → r' = r) :
    tryTokens toks s = some r := by
  induction toks with
  | nil => simp at h
  | cons a ts ih =>
    show List.findSome? (fun t => dropLit t s) (a :: ts) = some r
    rw [List.findSome?_cons]
    cases ha : dropLit a s with
    | some r' =>
      rw [huniq a (by simp) r' ha]
    | none =>
      obtain ⟨t, htmem, ht⟩ := h
      rcases List.mem_cons.mp htmem with rfl | htmem'
      · rw [ha] at ht; cases ht
      · exact ih ⟨t, htmem', ht⟩ fun t' ht' r' hr' => huniq t' (by simp [ht']) r' hr'

/-- At the position right after `property=`, with a rendered tag name whose
lowercase folding differs from the sought tag, no attribute token matches. -/
theorem tryTokens_attr_at_p_ne {n N z : List Char}
    (hn : ∀ c ∈ n, quoteChar c = false) (hN : ∀ c ∈ N, quoteChar c = false)
    (hne : lowerL N ≠ lowerL n) :
    tryTokens (attrTokens n) ("property=".data ++ '"' :: (N ++ '"' :: z)) = none := by
  apply tryTokens_none
  intro τ hτ
  obtain ⟨kw, q1, q2, rfl, hkw, hq1, hq2⟩ := attrTokens_shape hτ
  cases hcase : dropLit (kw ++ '=' :: q1 :: (n ++ [q2]))
      ("property=".data ++ '"' :: (N ++ '"' :: z)) with
  | none => rfl
  | some r =>
    have hkwq : ∀ c ∈ kw, quoteChar c = false := by
      rcases hkw with h | h <;> subst h <;> decide
    obtain ⟨e1, _, e3⟩ := token_prefix_split kw hkwq "property=".data (by decide) q1 hq1
      (n ++ [q2]) (N ++ '"' :: z) r hcase
    rcases hkw with h | h <;> subst h
    · obtain ⟨e4, _, _⟩ := tag_quote_prefix_eq n hn N hN q2 hq2 z r e3
      exact absurd e4 hne
    · exact absurd e1 (by decide)

/-- At the position right after `property=`, with a rendered tag name that folds
to the sought tag, the first attribute token matches case-insensitively and all
others agree on the remainder. -/
theorem tryTokens_attr_hit {n N w : List Char} (hn : ∀ c ∈ n, quoteChar c = false)
    (hN : ∀ c ∈ N, quoteChar c = false) (hlow : lowerL N = lowerL n) :
    tryTokens (attrTokens n) ("property=".data ++ '"' :: (N ++ '"' :: w)) = some w := by
  apply tryTokens_hit_unique
  · refine ⟨"property".data ++ '=' :: '"' :: (n ++ ['"']), ?_, ?_⟩
    · simp only [attrTokens, List.mem_flatMap, List.mem_map]
      exact ⟨"property".data, by simp, ⟨'"', by simp, ⟨'"', by simp, rfl⟩⟩⟩
    · rw [show ("property=".data : List Char) ++ '"' :: (N ++ '"' :: w) =
          "property".data ++ ('=' :: '"' :: (N ++ '"' :: w)) from by
        rw [show ("property=".data : List Char) = "property".data ++ ['='] from by decide]
        simp]
      rw [dropLit_append, dropLit_self]
      show dropLit ('=' :: '"' :: (n ++ ['"'])) ('=' :: '"' :: (N ++ '"' :: w)) = some w
      rw [dropLit_cons, if_pos (by decide), dropLit_cons, if_pos (by decide)]
      exact dropLit_tag_quote_hit hlow w
  · intro τ hτ r' hr'
    obtain ⟨kw, q1, q2, rfl, hkw, hq1, hq2⟩ := attrTokens_shape hτ
    have hkwq : ∀ c ∈ kw, quoteChar c = false := by
      rcases hkw with h | h <;> subst h <;> decide
    obtain ⟨e1, _, e3⟩ := token_prefix_split kw hkwq "property=".data (by decide) q1 hq1
      (n ++ [q2]) (N ++ '"' :: w) r' hr'
    rcases hkw with h | h <;> subst h
    · obtain ⟨_, _, e5⟩ := tag_quote_prefix_eq n hn N hN q2 hq2 w r' e3
      exact e5
    · exact absurd e1 (by decide)

/-- At the position right after `content=`, the first content token matches. -/
theorem tryTokens_content_hit (w : List Char) :
    tryTokens contentTokens ("content=".data ++ '"' :: w) = some w := by
  have hct : contentTokens =
      ("content=".data ++ ['"']) :: ["content=".data ++ [squoteChar]] := rfl
  rw [hct]
  apply tryTokens_head_hit
  have hpage : ("content=".data : List Char) ++ '"' :: w =
      ("content=".data ++ ['"']) ++ w := by simp
  rw [hpage]
  exact dropLit_of_lower rfl w

theorem takeWhile_quote_free :
    ∀ (C : List Char), (∀ c ∈ C, quoteChar c = false) →
      ∀ T, (C ++ '"' :: T).takeWhile (fun c => !quoteChar c) = C := by
  intro C
  induction C with
  | nil =>
    intro _ T
    rw [List.nil_append, List.takeWhile_cons]
    simp [quoteChar]
  | cons a C' ih =>
    intro hC T
    rw [List.cons_append, List.takeWhile_cons, hC a (by simp)]
    simp only [Bool.not_false, if_true]
    rw [ih (fun c hc => hC c (by simp [hc])) T]

theorem readCap_good {C T : List Char} (hC : ∀ c ∈ C, quoteChar c = false)
    (hCne : C ≠ []) : readCap (C ++ '"' :: T) = some (C, T) := by
  unfold readCap
  rw [takeWhile_quote_free C hC T]
  have hdrop : List.drop C.length (C ++ '"' :: T) = '"' :: T := List.drop_left C ('"' :: T)
  simp only [hdrop]
  have hemp : C.isEmpty = false := by
    cases C
    · exact absurd rfl hCne
    · rfl
  simp [hemp]

theorem renderTag_pf (N C rest : List Char) :
    renderTag ⟨N, C, false⟩ ++ rest = metaLit ++ pfBody N C rest := by
  have h1 : ("<meta property=\"".data : List Char) =
      "<meta".data ++ (' ' :: ("property=".data ++ ['"'])) := by decide
  have h2 : ("\" content=\"".data : List Char) = '"' :: (" content=".data ++ ['"']) := by decide
  have h3 : ("\">".data : List Char) = ['"', '>'] := by decide
  show ("<meta property=\"".data ++ N ++ "\" content=\"".data ++ C ++ "\">".data) ++ rest = _
  rw [h1, h2, h3]
  unfold metaLit pfBody
  simp [List.append_assoc]

theorem renderTag_cf (N C rest : List Char) :
    renderTag ⟨N, C, true⟩ ++ rest = metaLit ++ cfBody N C rest := by
  have h1 : ("<meta content=\"".data : List Char) =
      "<meta".data ++ (' ' :: ("content=".data ++ ['"'])) := by decide
  have h2 : ("\" property=\"".data : List Char) = '"' :: (" property=".data ++ ['"']) := by
    decide
  have h3 : ("\">".data : List Char) = ['"', '>'] := by decide
  show ("<meta content=\"".data ++ C ++ "\" property=\"".data ++ N ++ "\">".data) ++ rest = _
  rw [h1, h2, h3]
  unfold metaLit cfBody
  simp [List.append_assoc]

theorem suffix_quote_free {y y' : List Char} (h : ∀ c ∈ y, quoteChar c = false)
    (hs : y' <:+ y) : ∀ c ∈ y', quoteChar c = false :=
  fun c hc => h c (hs.sublist.subset hc)

theorem ne_of_not_suffix {y' lit y : List Char} (hs : y' <:+ y) (hn : ¬ (lit <:+ y)) :
    y' ≠ lit :=
  fun h => hn (h ▸ hs)

theorem lower_fixed_of_suffix {y y' : List Char} (hfix : ∀ c ∈ y, toLowerChar c = c)
    (hs : y' <:+ y) : lowerL y' = y' :=
  map_eq_self_of_fixed fun c hc => hfix c (hs.sublist.subset hc)

theorem scanAttr_pf_hit (n N C rest : List Char) (hn : ∀ c ∈ n, quoteChar c = false)
    (hN : ∀ c ∈ N, quoteChar c = false) (hlow : lowerL N = lowerL n) :
    scanWindow (attrTokens n) (pfBody N C rest) =
      some (" content=".data ++ '"' :: (C ++ '"' :: '>' :: rest)) := by
  unfold pfBody
  exact scanWindow_cons_hit ' ' (by decide) (tryTokens_attr_hit hn hN hlow)

theorem scanAttr_pf_miss (n N C rest : List Char) (hn : ∀ c ∈ n, quoteChar c = false)
    (hNg : ∀ c ∈ N, goodChar c = true) (hCg : ∀ c ∈ C, goodChar c = true)
    (hne : lowerL N ≠ lowerL n) :
    scanWindow (attrTokens n) (pfBody N C rest) = none := by
  unfold pfBody
  rw [scanWindow_cons_step ' ' (by decide)
    (tryTokens_attr_at_p_ne hn (good_quote_free hNg) hne)]
  rw [scanWindow_skip_seg "property=".data _ (by decide) (fun y' hsuf hne' =>
    tryTokens_attr_none (suffix_quote_free (by decide) hsuf)
      (by rw [lower_fixed_of_suffix (by decide) hsuf]; exact hne')
      (by rw [lower_fixed_of_suffix (by decide) hsuf]
          exact ne_of_not_suffix hsuf (by decide)))]
  rw [scanWindow_cons_step '"' (by decide)
    (tryTokens_attr_none (good_quote_free hNg) (good_ne_lits hNg).1 (good_ne_lits hNg).2.1)]
  rw [scanWindow_skip_seg N _
    (fun c hc => ⟨(goodChar_spec (hNg c hc)).1, (goodChar_spec (hNg c hc)).2.1⟩)
    (fun y' hsuf hne' =>
      have hg : ∀ c ∈ y', goodChar c = true := fun c hc => hNg c (hsuf.sublist.subset hc)
      tryTokens_attr_none (good_quote_free hg) (good_ne_lits hg).1 (good_ne_lits hg).2.1)]
  rw [scanWindow_cons_step '"' (by decide)
    (tryTokens_attr_none (by decide) (by decide) (by decide))]
  rw [scanWindow_skip_seg " content=".data _ (by decide) (fun y' hsuf hne' =>
    tryTokens_attr_none (suffix_quote_free (by decide) hsuf)
      (by rw [lower_fixed_of_suffix (by decide) hsuf]
          exact ne_of_not_suffix hsuf (by decide))
      (by rw [lower_fixed_of_suffix (by decide) hsuf]
          exact ne_of_not_suffix hsuf (by decide)))]
  rw [scanWindow_cons_step '"' (by decide)
    (tryTokens_attr_none (good_quote_free hCg) (good_ne_lits hCg).1 (good_ne_lits hCg).2.1)]
  rw [scanWindow_skip_seg C _
    (fun c hc => ⟨(goodChar_spec (hCg c hc)).1, (goodChar_spec (hCg c hc)).2.1⟩)
    (fun y' hsuf hne' =>
      have hg : ∀ c ∈ y', goodChar c = true := fun c hc => hCg c (hsuf.sublist.subset hc)
      tryTokens_attr_none (good_quote_free hg) (good_ne_lits hg).1 (good_ne_lits hg).2.1)]
  rw [scanWindow_cons_step '"' (by decide) (tryTokens_attr_gt rest)]
  exact scanWindow_gt _ rest

theorem scanAttr_cf_common (n N C rest : List Char) (_hn : ∀ c ∈ n, quoteChar c = false)
    (hCg : ∀ c ∈ C, goodChar c = true) :
    scanWindow (attrTokens n) (cfBody N C rest) =
      scanWindow (attrTokens n)
        (' ' :: ("property=".data ++ '"' :: (N ++ '"' :: '>' :: rest))) := by
  unfold cfBody
  rw [scanWindow_cons_step ' ' (by decide)
    (tryTokens_attr_none (by decide) (by decide) (by decide))]
  rw [scanWindow_skip_seg "content=".data _ (by decide) (fun y' hsuf hne' =>
    tryTokens_attr_none (suffix_quote_free (by decide) hsuf)
      (by rw [lower_fixed_of_suffix (by decide) hsuf]
          exact ne_of_not_suffix hsuf (by decide))
      (by rw [lower_fixed_of_suffix (by decide) hsuf]
          exact ne_of_not_suffix hsuf (by decide)))]
  rw [scanWindow_cons_step '"' (by decide)
    (tryTokens_attr_none (good_quote_free hCg) (good_ne_lits hCg).1 (good_ne_lits hCg).2.1)]
  rw [scanWindow_skip_seg C _
    (fun c hc => ⟨(goodChar_spec (hCg c hc)).1, (goodChar_spec (hCg c hc)).2.1⟩)
    (fun y' hsuf hne' =>
      have hg : ∀ c ∈ y', goodChar c = true := fun c hc => hCg c (hsuf.sublist.subset hc)
      tryTokens_attr_none (good_quote_free hg) (good_ne_lits hg).1 (good_ne_lits hg).2.1)]
  rw [scanWindow_cons_step '"' (by decide)
    (tryTokens_attr_none (by decide) (by decide) (by decide))]
  rfl

theorem scanAttr_cf_hit (n N C rest : List Char) (hn : ∀ c ∈ n, quoteChar c = false)
    (hNg : ∀ c ∈ N, goodChar c = true) (hCg : ∀ c ∈ C, goodChar c = true)
    (hlow : lowerL N = lowerL n) :
    scanWindow (attrTokens n) (cfBody N C rest) = some ('>' :: rest) := by
  rw [scanAttr_cf_common n N C rest hn hCg]
  exact scanWindow_cons_hit ' ' (by decide)
    (tryTokens_attr_hit hn (good_quote_free hNg) hlow)

theorem scanAttr_cf_miss (n N C rest : List Char) (hn : ∀ c ∈ n, quoteChar c = false)
    (hNg : ∀ c ∈ N, goodChar c = true) (hCg : ∀ c ∈ C, goodChar c = true)
    (hne : lowerL N ≠ lowerL n) :
    scanWindow (attrTokens n) (cfBody N C rest) = none := by
  rw [scanAttr_cf_common n N C rest hn hCg]
  rw [scanWindow_cons_step ' ' (by decide)
    (tryTokens_attr_at_p_ne hn (good_quote_free hNg) hne)]
  rw [scanWindow_skip_seg "property=".data _ (by decide) (fun y' hsuf hne' =>
    tryTokens_attr_none (suffix_quote_free (by decide) hsuf)
      (by rw [lower_fixed_of_suffix (by decide) hsuf]; exact hne')
      (by rw [lower_fixed_of_suffix (by decide) hsuf]
          exact ne_of_not_suffix hsuf (by decide)))]
  rw [scanWindow_cons_step '"' (by decide)
    (tryTokens_attr_none (good_quote_free hNg) (good_ne_lits hNg).1 (good_ne_lits hNg).2.1)]
  rw [scanWindow_skip_seg N _
    (fun c hc => ⟨(goodChar_spec (hNg c hc)).1, (goodChar_spec (hNg c hc)).2.1⟩)
    (fun y' hsuf hne' =>
      have hg : ∀ c ∈ y', goodChar c = true := fun c hc => hNg c (hsuf.sublist.subset hc)
      tryTokens_attr_none (good_quote_free hg) (good_ne_lits hg).1 (good_ne_lits hg).2.1)]
  rw [scanWindow_cons_step '"' (by decide) (tryTokens_attr_gt rest)]
  exact scanWindow_gt _ rest

theorem scanContent_pf (N C rest : List Char) (hNg : ∀ c ∈ N, goodChar c = true) :
    scanWindow contentTokens (pfBody N C rest) = some (C ++ '"' :: '>' :: rest) := by
  unfold pfBody
  rw [scanWindow_cons_step ' ' (by decide) (tryTokens_content_none (by decide) (by decide))]
  rw [scanWindow_skip_seg "property=".data _ (by decide) (fun y' hsuf hne' =>
    tryTokens_content_none (suffix_quote_free (by decide) hsuf)
      (by rw [lower_fixed_of_suffix (by decide) hsuf]
          exact ne_of_not_suffix hsuf (by decide)))]
  rw [scanWindow_cons_step '"' (by decide)
    (tryTokens_content_none (good_quote_free hNg) (good_ne_lits hNg).2.2)]
  rw [scanWindow_skip_seg N _
    (fun c hc => ⟨(goodChar_spec (hNg c hc)).1, (goodChar_spec (hNg c hc)).2.1⟩)
    (fun y' hsuf hne' =>
      have hg : ∀ c ∈ y', goodChar c = true := fun c hc => hNg c (hsuf.sublist.subset hc)
      tryTokens_content_none (good_quote_free hg) (good_ne_lits hg).2.2)]
  rw [scanWindow_cons_step '"' (by decide) (tryTokens_content_none (by decide) (by decide))]
  have hsplit : (" content=".data : List Char) = ' ' :: "content=".data := by decide
  rw [hsplit, List.cons_append]
  exact scanWindow_cons_hit ' ' (by decide) (tryTokens_content_hit _)

theorem scanContent_cf (N C rest : List Char) :
    scanWindow contentTokens (cfBody N C rest) =
      some (C ++ '"' :: (" property=".data ++ '"' :: (N ++ '"' :: '>' :: rest))) := by
  unfold cfBody
  exact scanWindow_cons_hit ' ' (by decide) (tryTokens_content_hit _)

theorem scanContent_ct_tail (C rest : List Char) :
    scanWindow contentTokens (" content=".data ++ '"' :: (C ++ '"' :: '>' :: rest)) =
      some (C ++ '"' :: '>' :: rest) := by
  have hsplit : (" content=".data : List Char) = ' ' :: "content=".data := by decide
  rw [hsplit, List.cons_append]
  exact scanWindow_cons_hit ' ' (by decide) (tryTokens_content_hit _)

theorem scanAttr_pr_tail_hit (n N rest : List Char) (hn : ∀ c ∈ n, quoteChar c = false)
    (hN : ∀ c ∈ N, quoteChar c = false) (hlow : lowerL N = lowerL n) :
    scanWindow (attrTokens n) (" property=".data ++ '"' :: (N ++ '"' :: '>' :: rest)) =
      some ('>' :: rest) := by
  have hsplit : (" property=".data : List Char) = ' ' :: "property=".data := by decide
  rw [hsplit, List.cons_append]
  exact scanWindow_cons_hit ' ' (by decide) (tryTokens_attr_hit hn hN hlow)

theorem scanAttr_pr_tail_miss (n N rest : List Char) (hn : ∀ c ∈ n, quoteChar c = false)
    (hNg : ∀ c ∈ N, goodChar c = true) (hne : lowerL N ≠ lowerL n) :
    scanWindow (attrTokens n) (" property=".data ++ '"' :: (N ++ '"' :: '>' :: rest)) =
      none := by
  have hsplit : (" property=".data : List Char) = ' ' :: "property=".data := by decide
  rw [hsplit, List.cons_append]
  rw [scanWindow_cons_step ' ' (by decide)
    (tryTokens_attr_at_p_ne hn (good_quote_free hNg) hne)]
  rw [scanWindow_skip_seg "property=".data _ (by decide) (fun y' hsuf hne' =>
    tryTokens_attr_none (suffix_quote_free (by decide) hsuf)
      (by rw [lower_fixed_of_suffix (by decide) hsuf]; exact hne')
      (by rw [lower_fixed_of_suffix (by decide) hsuf]
          exact ne_of_not_suffix hsuf (by decide)))]
  rw [scanWindow_cons_step '"' (by decide)
    (tryTokens_attr_none (good_quote_free hNg) (good_ne_lits hNg).1 (good_ne_lits hNg).2.1)]
  rw [scanWindow_skip_seg N _
    (fun c hc => ⟨(goodChar_spec (hNg c hc)).1, (goodChar_spec (hNg c hc)).2.1⟩)
    (fun y' hsuf hne' =>
      have hg : ∀ c ∈ y', goodChar c = true := fun c hc => hNg c (hsuf.sublist.subset hc)
      tryTokens_attr_none (good_quote_free hg) (good_ne_lits hg).1 (good_ne_lits hg).2.1)]
  rw [scanWindow_cons_step '"' (by decide) (tryTokens_attr_gt rest)]
  exact scanWindow_gt _ rest

theorem scanContent_ct_tail2 (C rest : List Char) :
    scanWindow contentTokens
      ([' ', 'c', 'o', 'n', 't', 'e', 'n', 't', '='] ++ '"' :: (C ++ '"' :: '>' :: rest)) =
      some (C ++ '"' :: '>' :: rest) :=
  scanContent_ct_tail C rest

theorem scanAttr_pr_tail_hit2 (n N rest : List Char) (hn : ∀ c ∈ n, quoteChar c = false)
    (hN : ∀ c ∈ N, quoteChar c = false) (hlow : lowerL N = lowerL n) :
    scanWindow (attrTokens n)
      ([' ', 'p', 'r', 'o', 'p', 'e', 'r', 't', 'y', '='] ++ '"' :: (N ++ '"' :: '>' :: rest)) =
      some ('>' :: rest) :=
  scanAttr_pr_tail_hit n N rest hn hN hlow

theorem scanAttr_pr_tail_miss2 (n N rest : List Char) (hn : ∀ c ∈ n, quoteChar c = false)
    (hNg : ∀ c ∈ N, goodChar c = true) (hne : lowerL N ≠ lowerL n) :
    scanWindow (attrTokens n)
      ([' ', 'p', 'r', 'o', 'p', 'e', 'r', 't', 'y', '='] ++ '"' :: (N ++ '"' :: '>' :: rest)) =
      none :=
  scanAttr_pr_tail_miss n N rest hn hNg hne

theorem matchP1_pf_hit (n N C rest : List Char) (hn : ∀ c ∈ n, quoteChar c = false)
    (hNg : ∀ c ∈ N, goodChar c = true) (hCg : ∀ c ∈ C, goodChar c = true)
    (hlow : lowerL N = lowerL n) (hCne : C ≠ []) :
    matchP1After n (pfBody N C rest) = some C := by
  have h3 := readCap_good (C := C) (T := '>' :: rest) (good_quote_free hCg) hCne
  simp only [matchP1After, scanAttr_pf_hit n N C rest hn (good_quote_free hNg) hlow,
    scanContent_ct_tail2, h3, Option.map_some']

theorem matchP1_pf_miss (n N C rest : List Char) (hn : ∀ c ∈ n, quoteChar c = false)
    (hNg : ∀ c ∈ N, goodChar c = true) (hCg : ∀ c ∈ C, goodChar c = true)
    (hne : lowerL N ≠ lowerL n) :
    matchP1After n (pfBody N C rest) = none := by
  simp only [matchP1After, scanAttr_pf_miss n N C rest hn hNg hCg hne]

theorem matchP1_cf_hit_tag (n N C rest : List Char) (hn : ∀ c ∈ n, quoteChar c = false)
    (hNg : ∀ c ∈ N, goodChar c = true) (hCg : ∀ c ∈ C, goodChar c = true)
    (hlow : lowerL N = lowerL n) :
    matchP1After n (cfBody N C rest) = none := by
  simp only [matchP1After, scanAttr_cf_hit n N C rest hn hNg hCg hlow, scanWindow_gt]

theorem matchP1_cf_miss (n N C rest : List Char) (hn : ∀ c ∈ n, quoteChar c = false)
    (hNg : ∀ c ∈ N, goodChar c = true) (hCg : ∀ c ∈ C, goodChar c = true)
    (hne : lowerL N ≠ lowerL n) :
    matchP1After n (cfBody N C rest) = none := by
  simp only [matchP1After, scanAttr_cf_miss n N C rest hn hNg hCg hne]

theorem matchP2_cf_hit (n N C rest : List Char) (hn : ∀ c ∈ n, quoteChar c = false)
    (hNg : ∀ c ∈ N, goodChar c = true) (hCg : ∀ c ∈ C, goodChar c = true)
    (hlow : lowerL N = lowerL n) (hCne : C ≠ []) :
    matchP2After n (cfBody N C rest) = some C := by
  have h3 := readCap_good (C := C)
    (T := [' ', 'p', 'r', 'o', 'p', 'e', 'r', 't', 'y', '='] ++ '"' ::
      (N ++ '"' :: '>' :: rest)) (good_quote_free hCg) hCne
  simp only [matchP2After, scanContent_cf, h3,
    scanAttr_pr_tail_hit2 n N rest hn (good_quote_free hNg) hlow]

theorem matchP2_cf_miss (n N C rest : List Char) (hn : ∀ c ∈ n, quoteChar c = false)
    (hNg : ∀ c ∈ N, goodChar c = true) (hCg : ∀ c ∈ C, goodChar c = true) (hCne : C ≠ [])
    (hne : lowerL N ≠ lowerL n) :
    matchP2After n (cfBody N C rest) = none := by
  have h3 := readCap_good (C := C)
    (T := [' ', 'p', 'r', 'o', 'p', 'e', 'r', 't', 'y', '='] ++ '"' ::
      (N ++ '"' :: '>' :: rest)) (good_quote_free hCg) hCne
  simp only [matchP2After, scanContent_cf, h3, scanAttr_pr_tail_miss2 n N rest hn hNg hne]

theorem matchP2_pf (n N C rest : List Char) (hNg : ∀ c ∈ N, goodChar c = true)
    (hCg : ∀ c ∈ C, goodChar c = true) (hCne : C ≠ []) :
    matchP2After n (pfBody N C rest) = none := by
  have h3 := readCap_good (C := C) (T := '>' :: rest) (good_quote_free hCg) hCne
  simp only [matchP2After, scanContent_pf N C rest hNg, h3, scanWindow_gt]

theorem scanFor_skip {Mf : List Char → Option (List Char)} :
    ∀ (x rest : List Char), (∀ c ∈ x, c ≠ '<') →
      scanFor Mf (x ++ rest) = scanFor Mf rest := by
  intro x
  induction x with
  | nil => intro rest _; rfl
  | cons c x' ih =>
    intro rest hx
    rw [List.cons_append]
    have hdl : dropLit metaLit (c :: (x' ++ rest)) = none :=
      dropLit_none_of_head_ne (a := '<') rfl (fold_ne_lt (hx c (by simp)))
    rw [show scanFor Mf (c :: (x' ++ rest)) = scanFor Mf (x' ++ rest) from by
      simp [scanFor, hdl]]
    exact ih rest fun a ha => hx a (by simp [ha])

theorem scanFor_step_some {Mf : List Char → Option (List Char)} {body v : List Char}
    (h : Mf body = some v) : scanFor Mf (metaLit ++ body) = some v := by
  have h1 : dropLit metaLit ('<' :: 'm' :: 'e' :: 't' :: 'a' :: body) = some body :=
    dropLit_self metaLit body
  show scanFor Mf ('<' :: 'm' :: 'e' :: 't' :: 'a' :: body) = some v
  simp only [scanFor, h1, h]

theorem scanFor_step_none {Mf : List Char → Option (List Char)} {body : List Char}
    (h : Mf body = none) :
    scanFor Mf (metaLit ++ body) = scanFor Mf body := by
  have h1 : dropLit metaLit ('<' :: 'm' :: 'e' :: 't' :: 'a' :: body) = some body :=
    dropLit_self metaLit body
  have e1 : dropLit metaLit ('m' :: 'e' :: 't' :: 'a' :: body) = none :=
    dropLit_none_of_head_ne (a := '<') rfl (by decide)
  have e2 : dropLit metaLit ('e' :: 't' :: 'a' :: body) = none :=
    dropLit_none_of_head_ne (a := '<') rfl (by decide)
  have e3 : dropLit metaLit ('t' :: 'a' :: body) = none :=
    dropLit_none_of_head_ne (a := '<') rfl (by decide)
  have e4 : dropLit metaLit ('a' :: body) = none :=
    dropLit_none_of_head_ne (a := '<') rfl (by decide)
  show scanFor Mf ('<' :: 'm' :: 'e' :: 't' :: 'a' :: body) = _
  simp only [scanFor, h1, h, e1, e2, e3, e4]

theorem pfBody_split (N C rest : List Char) : pfBody N C rest = pfChrome N C ++ rest := by
  unfold pfBody pfChrome
  simp [List.append_assoc]

theorem cfBody_split (N C rest : List Char) : cfBody N C rest = cfChrome N C ++ rest := by
  unfold cfBody cfChrome
  simp [List.append_assoc]

theorem no_lt_append {a b : List Char} (ha : ∀ c ∈ a, c ≠ '<') (hb : ∀ c ∈ b, c ≠ '<') :
    ∀ c ∈ a ++ b, c ≠ '<' := by
  intro c hc
  rcases List.mem_append.mp hc with h | h
  · exact ha c h
  · exact hb c h

theorem no_lt_cons {a : Char} {b : List Char} (ha : a ≠ '<') (hb : ∀ c ∈ b, c ≠ '<') :
    ∀ c ∈ a :: b, c ≠ '<' := by
  intro c hc
  rcases List.mem_cons.mp hc with h | h
  · rw [h]; exact ha
  · exact hb c h

theorem pfChrome_no_lt {N C : List Char} (hN : ∀ c ∈ N, goodChar c = true)
    (hC : ∀ c ∈ C, goodChar c = true) : ∀ c ∈ pfChrome N C, c ≠ '<' := by
  have hN' : ∀ c ∈ N, c ≠ '<' := fun c hc => (goodChar_spec (hN c hc)).2.2.2
  have hC' : ∀ c ∈ C, c ≠ '<' := fun c hc => (goodChar_spec (hC c hc)).2.2.2
  unfold pfChrome
  exact no_lt_cons (by decide) (no_lt_append (by decide) (no_lt_cons (by decide)
    (no_lt_append hN' (no_lt_cons (by decide) (no_lt_append (by decide)
      (no_lt_cons (by decide) (no_lt_append hC' (by decide))))))))

theorem cfChrome_no_lt {N C : List Char} (hN : ∀ c ∈ N, goodChar c = true)
    (hC : ∀ c ∈ C, goodChar c = true) : ∀ c ∈ cfChrome N C, c ≠ '<' := by
  have hN' : ∀ c ∈ N, c ≠ '<' := fun c hc => (goodChar_spec (hN c hc)).2.2.2
  have hC' : ∀ c ∈ C, c ≠ '<' := fun c hc => (goodChar_spec (hC c hc)).2.2.2
  unfold cfChrome
  exact no_lt_cons (by decide) (no_lt_append (by decide) (no_lt_cons (by decide)
    (no_lt_append hC' (no_lt_cons (by decide) (no_lt_append (by decide)
      (no_lt_cons (by decide) (no_lt_append hN' (by decide))))))))

theorem renderPage_cons (t : MetaTag) (ts : List MetaTag) :
    renderPage (t :: ts) = renderTag t ++ renderPage ts := by
  simp [renderPage]

theorem scanFor_p1_cons_none (n : List Char) (hn : ∀ c ∈ n, goodChar c = true)
    (t : MetaTag) (ts : List MetaTag) (hwf : wfTag t)
    (hnot : ¬ (lowerL t.name = lowerL n ∧ t.contentFirst = false)) :
    scanFor (matchP1After n) (renderPage (t :: ts)) =
      scanFor (matchP1After n) (renderPage ts) := by
  obtain ⟨N, C, cf⟩ := t
  obtain ⟨hNne, hNg, hCne, hCg⟩ := hwf
  rw [renderPage_cons]
  cases cf with
  | false =>
    have hne : lowerL N ≠ lowerL n := fun h => hnot ⟨h, rfl⟩
    rw [renderTag_pf N C (renderPage ts)]
    rw [scanFor_step_none (matchP1_pf_miss n N C (renderPage ts)
      (good_quote_free hn) hNg hCg hne)]
    rw [pfBody_split]
    exact scanFor_skip _ _ (pfChrome_no_lt hNg hCg)
  | true =>
    by_cases hNn : lowerL N = lowerL n
    · rw [renderTag_cf N C (renderPage ts)]
      rw [scanFor_step_none (matchP1_cf_hit_tag n N C (renderPage ts)
        (good_quote_free hn) hNg hCg hNn)]
      rw [cfBody_split]
      exact scanFor_skip _ _ (cfChrome_no_lt hNg hCg)
    · rw [renderTag_cf N C (renderPage ts)]
      rw [scanFor_step_none (matchP1_cf_miss n N C (renderPage ts)
        (good_quote_free hn) hNg hCg hNn)]
      rw [cfBody_split]
      exact scanFor_skip _ _ (cfChrome_no_lt hNg hCg)

theorem scanFor_p2_cons_none (n : List Char) (hn : ∀ c ∈ n, goodChar c = true)
    (t : MetaTag) (ts : List MetaTag) (hwf : wfTag t)
    (hnot : ¬ (lowerL t.name = lowerL n ∧ t.contentFirst = true)) :
    scanFor (matchP2After n) (renderPage (t :: ts)) =
      scanFor (matchP2After n) (renderPage ts) := by
  obtain ⟨N, C, cf⟩ := t
  obtain ⟨hNne, hNg, hCne, hCg⟩ := hwf
  rw [renderPage_cons]
  cases cf with
  | false =>
    rw [renderTag_pf N C (renderPage ts)]
    rw [scanFor_step_none (matchP2_pf n N C (renderPage ts) hNg hCg hCne)]
    rw [pfBody_split]
    exact scanFor_skip _ _ (pfChrome_no_lt hNg hCg)
  | true =>
    have hne : lowerL N ≠ lowerL n := fun h => hnot ⟨h, rfl⟩
    rw [renderTag_cf N C (renderPage ts)]
    rw [scanFor_step_none (matchP2_cf_miss n N C (renderPage ts)
      (good_quote_free hn) hNg hCg hCne hne)]
    rw [cfBody_split]
    exact scanFor_skip _ _ (cfChrome_no_lt hNg hCg)

theorem scanFor_p1_page_none (n : List Char) (hn : ∀ c ∈ n, goodChar c = true) :
    ∀ ts : List MetaTag, (∀ t ∈ ts, wfTag t) →
      (∀ t ∈ ts, ¬ (lowerL t.name = lowerL n ∧ t.contentFirst = false)) →
      scanFor (matchP1After n) (renderPage ts) = none := by
  intro ts
  induction ts with
  | nil => intro _ _; rfl
  | cons t ts ih =>
    intro hwf hnot
    rw [scanFor_p1_cons_none n hn t ts (hwf t (by simp)) (hnot t (by simp))]
    exact ih (fun t' ht' => hwf t' (by simp [ht'])) (fun t' ht' => hnot t' (by simp [ht']))

theorem scanFor_p2_page_none (n : List Char) (hn : ∀ c ∈ n, goodChar c = true) :
    ∀ ts : List MetaTag, (∀ t ∈ ts, wfTag t) →
      (∀ t ∈ ts, ¬ (lowerL t.name = lowerL n ∧ t.contentFirst = true)) →
      scanFor (matchP2After n) (renderPage ts) = none := by
  intro ts
  induction ts with
  | nil => intro _ _; rfl
  | cons t ts ih =>
    intro hwf hnot
    rw [scanFor_p2_cons_none n hn t ts (hwf t (by simp)) (hnot t (by simp))]
    exact ih (fun t' ht' => hwf t' (by simp [ht'])) (fun t' ht' => hnot t' (by simp [ht']))

theorem scanFor_p1_page_found (n : List Char) (hn : ∀ c ∈ n, goodChar c = true) :
    ∀ (pre : List MetaTag) (t : MetaTag) (post : List MetaTag),
      (∀ t' ∈ pre ++ t :: post, wfTag t') →
      (∀ t' ∈ pre, ¬ (lowerL t'.name = lowerL n ∧ t'.contentFirst = false)) →
      lowerL t.name = lowerL n → t.contentFirst = false →
      scanFor (matchP1After n) (renderPage (pre ++ t :: post)) = some t.content := by
  intro pre
  induction pre with
  | nil =>
    intro t post hwf _ hname hcf
    obtain ⟨N, C, cf⟩ := t
    obtain ⟨hNne, hNg, hCne, hCg⟩ := hwf ⟨N, C, cf⟩ (by simp)
    simp only at hname hcf
    subst hcf
    rw [List.nil_append, renderPage_cons, renderTag_pf]
    exact scanFor_step_some (matchP1_pf_hit n N C (renderPage post)
      (good_quote_free hn) hNg hCg hname hCne)
  | cons t' pre' ih =>
    intro t post hwf hnot hname hcf
    rw [List.cons_append]
    rw [scanFor_p1_cons_none n hn t' (pre' ++ t :: post) (hwf t' (by simp))
      (hnot t' (by simp))]
    exact ih t post (fun u hu => hwf u (by simp [hu]))
      (fun u hu => hnot u (by simp [hu])) hname hcf

theorem scanFor_p2_page_found (n : List Char) (hn : ∀ c ∈ n, goodChar c = true) :
    ∀ (pre : List MetaTag) (t : MetaTag) (post : List MetaTag),
      (∀ t' ∈ pre ++ t :: post, wfTag t') →
      (∀ t' ∈ pre, ¬ (lowerL t'.name = lowerL n ∧ t'.contentFirst = true)) →
      lowerL t.name = lowerL n → t.contentFirst = true →
      scanFor (matchP2After n) (renderPage (pre ++ t :: post)) = some t.content := by
  intro pre
  induction pre with
  | nil =>
    intro t post hwf _ hname hcf
    obtain ⟨N, C, cf⟩ := t
    obtain ⟨hNne, hNg, hCne, hCg⟩ := hwf ⟨N, C, cf⟩ (by simp)
    simp only at hname hcf
    subst hcf
    rw [List.nil_append, renderPage_cons, renderTag_cf]
    exact scanFor_step_some (matchP2_cf_hit n N C (renderPage post)
      (good_quote_free hn) hNg hCg hname hCne)
  | cons t' pre' ih =>
    intro t post hwf hnot hname hcf
    rw [List.cons_append]
    rw [scanFor_p2_cons_none n hn t' (pre' ++ t :: post) (hwf t' (by simp))
      (hnot t' (by simp))]
    exact ih t post (fun u hu => hwf u (by simp [hu]))
      (fun u hu => hnot u (by simp [hu])) hname hcf

theorem extractMetaL_eq (n : List Char) (hn : ∀ c ∈ n, goodChar c = true)
    (pre : List MetaTag) (t : MetaTag) (post : List MetaTag)
    (hwf : ∀ t' ∈ pre ++ t :: post, wfTag t')
    (hpre : ∀ t' ∈ pre, lowerL t'.name ≠ lowerL n)
    (hpost : ∀ t' ∈ post, lowerL t'.name ≠ lowerL n)
    (hname : lowerL t.name = lowerL n) :
    extractMetaL (renderPage (pre ++ t :: post)) n = some t.content := by
  cases hcf : t.contentFirst with
  | false =>
    have h1 := scanFor_p1_page_found n hn pre t post hwf
      (fun t' ht' h => hpre t' ht' h.1) hname hcf
    simp only [extractMetaL, h1]
  | true =>
    have h1 : scanFor (matchP1After n) (renderPage (pre ++ t :: post)) = none := by
      apply scanFor_p1_page_none n hn _ hwf
      intro t' ht' hcontra
      rcases List.mem_append.mp ht' with hmem | hmem
      · exact hpre t' hmem hcontra.1
      · rcases List.mem_cons.mp hmem with rfl | hmem'
        · rw [hcf] at hcontra
          cases hcontra.2
        · exact hpost t' hmem' hcontra.1
    have h2 := scanFor_p2_page_found n hn pre t post hwf
      (fun t' ht' h => hpre t' ht' h.1) hname hcf
    simp only [extractMetaL, h1, h2]

theorem extractMetaL_none (n : List Char) (hn : ∀ c ∈ n, goodChar c = true)
    (ts : List MetaTag) (hwf : ∀ t ∈ ts, wfTag t)
    (habs : ∀ t ∈ ts, lowerL t.name ≠ lowerL n) :
    extractMetaL (renderPage ts) n = none := by
  simp only [extractMetaL,
    scanFor_p1_page_none n hn ts hwf (fun t ht h => habs t ht h.1),
    scanFor_p2_page_none n hn ts hwf (fun t ht h => habs t ht h.1)]

theorem extractMeta_mk_none (page : List Char) (q : String)
    (h : extractMetaL page q.data = none) : extractMeta (String.mk page) q = none := by
  show (extractMetaL page q.data).map String.mk = none
  rw [h]
  rfl

theorem extractMeta_mk_some (page v : List Char) (q : String)
    (h : extractMetaL page q.data = some v) :
    extractMeta (String.mk page) q = some (String.mk v) := by
  show (extractMetaL page q.data).map String.mk = some (String.mk v)
  rw [h]
  rfl

/-- Claim C3: for every well-formed page of rendered meta elements (each in either
attribute order, with lowercased names pairwise distinct — the regexes carry the
`i` flag, so names match case-insensitively) that contains a recognized audio
tag, the audio-url loop returns that tag's content as the audio URL and names as
`sourceTag` the highest-priority recognized tag present (priority
`og:audio` > `og:audio:url` > `og:audio:secure_url` > `twitter:player:stream`). -/
theorem extractAudioInfo_priority (ts : List MetaTag) (p : String) (t : MetaTag)
    (hwf : ∀ t' ∈ ts, wfTag t')
    (hnd : (ts.map fun t' => lowerL t'.name).Nodup)
    (hp : p ∈ META_TAGS)
    (ht : t ∈ ts) (hname : lowerL t.name = p.data)
    (hhigh : ∀ q ∈ META_TAGS.takeWhile (fun q' => decide (q' ≠ p)),
      ∀ t' ∈ ts, lowerL t'.name ≠ q.data) :
    findAudio (String.mk (renderPage ts)) = some (String.mk t.content, p) := by
  have hgood : ∀ c ∈ p.data, goodChar c = true := by
    rcases (by simpa [META_TAGS] using hp :
      p = "og:audio" ∨ p = "og:audio:url" ∨ p = "og:audio:secure_url" ∨
        p = "twitter:player:stream") with h | h | h | h <;> subst h <;> decide
  have hpfix : lowerL p.data = p.data := by
    rcases (by simpa [META_TAGS] using hp :
      p = "og:audio" ∨ p = "og:audio:url" ∨ p = "og:audio:secure_url" ∨
        p = "twitter:player:stream") with h | h | h | h <;> subst h <;> decide
  obtain ⟨pre, post, hts⟩ := List.append_of_mem ht
  subst hts
  have hnames : ((pre ++ t :: post).map fun t' => lowerL t'.name) =
      (pre.map fun t' => lowerL t'.name) ++
        lowerL t.name :: (post.map fun t' => lowerL t'.name) := by
    simp
  rw [hnames] at hnd
  rw [List.nodup_append] at hnd
  obtain ⟨hnd1, hnd2, hdisj⟩ := hnd
  rw [List.nodup_cons] at hnd2
  have hpre : ∀ t' ∈ pre, lowerL t'.name ≠ p.data := by
    intro t' ht' hcontra
    have h1 : lowerL t'.name ∈ pre.map fun t'' => lowerL t''.name :=
      List.mem_map_of_mem _ ht'
    have h2 : lowerL t'.name ∈
        lowerL t.name :: (post.map fun t'' => lowerL t''.name) := by
      rw [hcontra, ← hname]
      simp
    exact hdisj h1 h2
  have hpost : ∀ t' ∈ post, lowerL t'.name ≠ p.data := by
    intro t' ht' hcontra
    apply hnd2.1
    rw [hname, ← hcontra]
    exact List.mem_map_of_mem _ ht'
  have hsome : extractMeta (String.mk (renderPage (pre ++ t :: post))) p =
      some (String.mk t.content) :=
    extractMeta_mk_some _ _ _ (extractMetaL_eq p.data hgood pre t post hwf
      (fun t' ht' => by rw [hpfix]; exact hpre t' ht')
      (fun t' ht' => by rw [hpfix]; exact hpost t' ht')
      (by rw [hpfix]; exact hname))
  have habs : ∀ q ∈ META_TAGS.takeWhile (fun q' => decide (q' ≠ p)),
      extractMeta (String.mk (renderPage (pre ++ t :: post))) q = none := by
    intro q hq
    have hqm : q ∈ META_TAGS := (List.takeWhile_prefix _).sublist.subset hq
    have hqgood : ∀ c ∈ q.data, goodChar c = true := by
      rcases (by simpa [META_TAGS] using hqm :
        q = "og:audio" ∨ q = "og:audio:url" ∨ q = "og:audio:secure_url" ∨
          q = "twitter:player:stream") with h | h | h | h <;> subst h <;> decide
    have hqfix : lowerL q.data = q.data := by
      rcases (by simpa [META_TAGS] using hqm :
        q = "og:audio" ∨ q = "og:audio:url" ∨ q = "og:audio:secure_url" ∨
          q = "twitter:player:stream") with h | h | h | h <;> subst h <;> decide
    exact extractMeta_mk_none _ _ (extractMetaL_none q.data hqgood _ hwf
      (fun t' ht' => by rw [hqfix]; exact hhigh q hq t' ht'))
  rcases (by simpa [META_TAGS] using hp :
    p = "og:audio" ∨ p = "og:audio:url" ∨ p = "og:audio:secure_url" ∨
      p = "twitter:player:stream") with h | h | h | h <;> subst h
  · simp only [findAudio, META_TAGS, List.findSome?_cons, hsome, Option.map_some']
  · have e1 := habs "og:audio" (by decide)
    simp only [findAudio, META_TAGS, List.findSome?_cons, e1, hsome,
      Option.map_none', Option.map_some']
  · have e1 := habs "og:audio" (by decide)
    have e2 := habs "og:audio:url" (by decide)
    simp only [findAudio, META_TAGS, List.findSome?_cons, e1, e2, hsome,
      Option.map_none', Option.map_some']
  · have e1 := habs "og:audio" (by decide)
    have e2 := habs "og:audio:url" (by decide)
    have e3 := habs "og:audio:secure_url" (by decide)
    simp only [findAudio, META_TAGS, List.findSome?_cons, e1, e2, e3, hsome,
      Option.map_none', Option.map_some']

theorem extractAudioInfo_priority_witness :
    findAudio (String.mk (renderPage
      [⟨"og:title".data, "My Song".data, false⟩,
       ⟨"OG:Audio:Url".data, "https://a.mp3".data, true⟩,
       ⟨"twitter:player:stream".data, "https://b.mp3".data, false⟩])) =
      some (String.mk "https://a.mp3".data, "og:audio:url") :=
  extractAudioInfo_priority
    [⟨"og:title".data, "My Song".data, false⟩,
     ⟨"OG:Audio:Url".data, "https://a.mp3".data, true⟩,
     ⟨"twitter:player:stream".data, "https://b.mp3".data, false⟩]
    "og:audio:url" ⟨"OG:Audio:Url".data, "https://a.mp3".data, true⟩
    (by decide) (by decide) (by decide)
    (List.Mem.tail _ (List.Mem.head _)) (by decide) (by decide)
